import Mathlib

/-!
Verification development for the `tracing-experimentation` repository.

The repository contains two variants of a structured-logging adapter for the
`tracing` ecosystem:

* the newer crate (`layer/src/compat_layer.rs`, `layer/src/fmt.rs`,
  `layer/src/fmt/json.rs`), embedded below in namespace `Layer`;
* the older crate (`src/compat_layer.rs`, `src/json.rs`), embedded below in
  namespace `Compat`.

Shared pieces (the `Visitor` field accumulator, which is textually identical in
both crates, and `format_duration`, also identical in both crates) are defined
once at the top level.

Modelling conventions:

* `BTreeMap<&str, serde_json::Value>` is a sorted association list
  (`List (String × JsonValue)`), with `insertField` mirroring
  `BTreeMap::insert` (overwrite on equal key, keep sorted order).
* `f64` field values are never computed with by the source (they are only
  stored and serialized), so they are carried opaquely as their rendering.
* A monotonic `Instant` is a natural number of nanoseconds.
* Panics (`expect`) are modelled as `Except.error` carrying the panic message;
  infallible paths return plain values.
* The `f64` arithmetic inside `format_duration` is embedded exactly: every
  binary64 value is carried as an exact dyadic pair `(m, s)` of value
  `m / 2^s`; `roundF64` performs the IEEE round-to-nearest-ties-even at 53
  significant bits, the u64→f64 cast and the division by the (exactly
  representable) power-of-ten literal are correctly rounded through it,
  comparisons against the exactly representable thresholds
  10.0/100.0/1000.0 are exact, and `formatF64Fixed` renders the double's
  exact value to `k` decimals with ties to even, as Rust's fixed-precision
  float formatting does.
-/

namespace TracingExp

/-- The subset of `serde_json::Value` that the adapter stores in field
accumulators: integers (`i64`/`u64`), floats (carried opaquely by their
rendering), booleans, strings, and `Null` (used when serializing absent
source metadata). -/
inductive JsonValue where
  | null
  | bool (b : Bool)
  | int (i : Int)
  | float (repr : String)
  | str (s : String)
  deriving DecidableEq, Repr

/-- `serde_json::Value::as_str`. -/
def JsonValue.as_str : JsonValue → Option String
  | .str s => some s
  | _ => none

/-- `str::starts_with` (on the character list, so that it evaluates by
kernel reduction; the prefixes used by the source are ASCII, where characters
and bytes agree). -/
def strStartsWith (s p : String) : Bool := p.data.isPrefixOf s.data

/-- `&name[2..]` for a name with a two-character ASCII prefix. -/
def strDrop (s : String) (n : Nat) : String := ⟨s.data.drop n⟩

/-- Lexicographic order on character lists (by code point).  UTF-8 preserves
code-point order, so this is exactly the byte-lexicographic `Ord` instance of
Rust's `&str` that `BTreeMap` sorts by. -/
def charListLt : List Char → List Char → Bool
  | [], [] => false
  | [], _ :: _ => true
  | _ :: _, [] => false
  | a :: as, b :: bs =>
    if a.val.toNat < b.val.toNat then true
    else if b.val.toNat < a.val.toNat then false
    else charListLt as bs

/-- The `&str` ordering used by the `BTreeMap` keys. -/
def strLt (a b : String) : Bool := charListLt a.data b.data

/-- One key/value entry of a JSON map, in emission order. -/
abbrev Entry := String × JsonValue

/-- `BTreeMap::insert` on the sorted-association-list representation:
insert before the first strictly larger key, overwrite an equal key. -/
def insertField (k : String) (v : JsonValue) : List Entry → List Entry
  | [] => [(k, v)]
  | e :: rest =>
    if strLt k e.1 then (k, v) :: e :: rest
    else if k = e.1 then (k, v) :: rest
    else e :: insertField k v rest

/-- `BTreeMap::get`. -/
def lookupField (k : String) : List Entry → Option JsonValue
  | [] => none
  | e :: rest => if e.1 = k then some e.2 else lookupField k rest

/-- `BTreeMap::remove` (the map keeps at most one entry per key). -/
def removeField (k : String) : List Entry → List Entry
  | [] => []
  | e :: rest => if e.1 = k then rest else e :: removeField k rest

/-- The `BTreeMap` representation invariant: keys strictly increasing. -/
abbrev SortedFields (fs : List Entry) : Prop :=
  fs.Pairwise (fun a b => strLt a.1 b.1 = true)

/-- The `Visitor` struct (field accumulator); textually identical in both
crates: a `BTreeMap<&str, serde_json::Value>` populated through the
`tracing_core::field::Visit` trait. -/
structure Visitor where
  fields : List Entry
  deriving DecidableEq, Repr

def Visitor.empty : Visitor := ⟨[]⟩

def Visitor.record_i64 (v : Visitor) (name : String) (value : Int) : Visitor :=
  ⟨insertField name (.int value) v.fields⟩

def Visitor.record_u64 (v : Visitor) (name : String) (value : Nat) : Visitor :=
  ⟨insertField name (.int value) v.fields⟩

def Visitor.record_f64 (v : Visitor) (name : String) (value : String) : Visitor :=
  ⟨insertField name (.float value) v.fields⟩

def Visitor.record_bool (v : Visitor) (name : String) (value : Bool) : Visitor :=
  ⟨insertField name (.bool value) v.fields⟩

def Visitor.record_str (v : Visitor) (name : String) (value : String) : Visitor :=
  ⟨insertField name (.str value) v.fields⟩

/-- `Visit::record_debug`: the only visit method that applies the field-naming
policy — a name starting with `"log."` is skipped, a name starting with
`"r#"` is stored under the name with those two characters removed; the value
is the `format!("{:?}", value)` rendering. -/
def Visitor.record_debug (v : Visitor) (name : String) (rendered : String) : Visitor :=
  if strStartsWith name "log." then v
  else if strStartsWith name "r#" then
    ⟨insertField (strDrop name 2) (.str rendered) v.fields⟩
  else
    ⟨insertField name (.str rendered) v.fields⟩

/-- One call to one of the `Visit` methods, as dispatched by
`Attributes::record` / `Record::record` / `Event::record`. -/
inductive RecordOp where
  | i64 (name : String) (value : Int)
  | u64 (name : String) (value : Nat)
  | f64 (name : String) (rendering : String)
  | bool (name : String) (value : Bool)
  | str (name : String) (value : String)
  | debug (name : String) (rendered : String)
  deriving DecidableEq, Repr

def Visitor.record (v : Visitor) : RecordOp → Visitor
  | .i64 name value => v.record_i64 name value
  | .u64 name value => v.record_u64 name value
  | .f64 name rendering => v.record_f64 name rendering
  | .bool name value => v.record_bool name value
  | .str name value => v.record_str name value
  | .debug name rendered => v.record_debug name rendered

/-- `values.record(&mut visitor)`: visit a whole payload of recorded fields. -/
def Visitor.recordAll (v : Visitor) (ops : List RecordOp) : Visitor :=
  ops.foldl Visitor.record v

/-- The static callsite metadata of a span or event
(`tracing_core::Metadata`): name, level, file, line, target. -/
structure Metadata where
  name : String
  level : String
  file : Option String
  line : Option Nat
  target : String
  deriving DecidableEq, Repr

/-- A span as seen by the adapter: its static metadata plus the two extension
slots this system attaches (`Visitor` and `InstantWrapper`).  The timestamp is
a monotonic clock reading in nanoseconds. -/
structure SpanNode where
  meta : Metadata
  acc : Option Visitor
  timer : Option Nat
  deriving DecidableEq, Repr

/-- A logged event: its static metadata and the field-visit calls its value
set produces via `event.record(&mut visitor)`. -/
structure EventData where
  meta : Metadata
  fields : List RecordOp
  deriving DecidableEq, Repr

/-- `Option<&str>` serialized by serde: `None` becomes JSON `null`. -/
def jsonOfOptStr : Option String → JsonValue
  | some s => .str s
  | none => .null

/-- `Option<u32>` serialized by serde: `None` becomes JSON `null`. -/
def jsonOfOptNat : Option Nat → JsonValue
  | some n => .int n
  | none => .null

/-- The fields a scope contributes to the merged record: the contents of its
attached accumulator (empty if the slot is missing). -/
def accFields (s : SpanNode) : List Entry :=
  match s.acc with
  | some v => v.fields
  | none => []

/-! ### `format_duration` (identical in `layer/src/fmt.rs` and `src/json.rs`) -/

/-- `u64::checked_mul`. -/
def checkedMul64 (a b : Nat) : Option Nat :=
  if a * b < 2 ^ 64 then some (a * b) else none

/-- Round `num / den` to the nearest integer, ties to even — the rounding
primitive of IEEE binary64 arithmetic and of Rust's fixed-precision float
formatting. -/
def roundHalfEven (num den : Nat) : Nat :=
  let q := num / den
  let r := num % den
  if 2 * r < den then q
  else if den < 2 * r then q + 1
  else if q % 2 = 0 then q else q + 1

/-- Left-pad a digit string with zeros to `k` characters. -/
def padZeros (s : String) (k : Nat) : String :=
  if s.length < k then String.mk (List.replicate (k - s.length) '0') ++ s else s

/-- `⌊log2 (num/den)⌋` for `1 ≤ den ≤ num < den·2^(E+1)`: the largest
`e ≤ E` with `den·2^e ≤ num` (structural recursion on the candidate bound, so
that it evaluates by kernel reduction). -/
def floorLog2From (num den : Nat) : Nat → Nat
  | 0 => 0
  | e + 1 => if den * 2 ^ (e + 1) ≤ num then e + 1 else floorLog2From num den e

/-- `⌊log2 (num/den)⌋`, exact for quotients below `2^151` — far above the u64
range this system works in (the cap only makes the search total). -/
def floorLog2 (num den : Nat) : Nat := floorLog2From num den 150

/-- An IEEE binary64 (f64) value carried exactly: a dyadic pair `(m, s)`
whose value is the rational `m / 2^s`.  All nonnegative doubles in this
system's range have this form. -/
abbrev F64 := Nat × Nat

/-- The exact rational value of a dyadic f64 pair (proof-side semantics). -/
def pairVal (x : F64) : ℚ := (x.1 : ℚ) / 2 ^ x.2

/-- The IEEE binary64 nearest to `num/den` (round to nearest, ties to even),
for `1 ≤ den ≤ num < den·2^151` — normal range, no overflow.  The quotient is
scaled to 53 significant bits and the significand rounded to an integer; the
result is the double's exact value as a dyadic pair. -/
def roundF64 (num den : Nat) : F64 :=
  let e := floorLog2 num den
  if e ≤ 52 then (roundHalfEven (num * 2 ^ (52 - e)) den, 52 - e)
  else (roundHalfEven num (den * 2 ^ (e - 52)) * 2 ^ (e - 52), 0)

/-- `ns as f64` (Rust's u64→f64 cast: round to nearest, ties to even; exact
below `2^53`). -/
def natToF64 (ns : Nat) : F64 := roundF64 ns 1

/-- f64 division of the double `x` by the literal `10^j` (which is exactly
representable for `j ≤ 22`): IEEE division is the correctly rounded true
quotient. -/
def divPow10F64 (x : F64) (j : Nat) : F64 := roundF64 x.1 (2 ^ x.2 * 10 ^ j)

/-- f64 comparison of the double `x` with the small-integer-valued double `T`
(both dyadic, so the comparison is exact). -/
def f64Lt (x : F64) (T : Nat) : Bool := x.1 < T * 2 ^ x.2

/-- Rust's `format!("{:.k$}", x)` on the double `x ≥ 0`: the exact (dyadic
rational) value of the double is rounded to `k` decimal places, ties to
even, and printed with exactly `k` digits after the point. -/
def formatF64Fixed (x : F64) (k : Nat) : String :=
  let m := roundHalfEven (x.1 * 10 ^ k) (2 ^ x.2)
  if k = 0 then toString m
  else toString (m / 10 ^ k) ++ "." ++ padZeros (toString (m % 10 ^ k)) k

/-- The inner `format_fraction`, on the f64 scaled value: 3 decimals below
10.0, 2 below 100.0, 1 below 1000.0, none otherwise.  The thresholds are
exactly representable doubles, so the comparisons are exact. -/
def format_fraction (value : F64) (suffix : String) : String :=
  if f64Lt value 10 then formatF64Fixed value 3 ++ suffix
  else if f64Lt value 100 then formatF64Fixed value 2 ++ suffix
  else if f64Lt value 1000 then formatF64Fixed value 1 ++ suffix
  else formatF64Fixed value 0 ++ suffix

/-- `format_duration`, on a `Duration` given as whole seconds plus subsecond
nanoseconds.  `checked_mul` failure falls back to whole seconds; the following
unchecked `u64` addition wraps modulo `2^64` (release-profile semantics); the
scaled value handed to `format_fraction` is the f64 quotient
`duration_in_ns as f64 / 10^j.0`. -/
def format_duration (secs subsec_nanos : Nat) : String :=
  match checkedMul64 secs 1000000000 with
  | none => toString secs ++ "s"
  | some secs_part =>
    let duration_in_ns := (secs_part + subsec_nanos) % 2 ^ 64
    if duration_in_ns < 1000 then toString duration_in_ns ++ "ns"
    else if duration_in_ns < 1000000 then
      format_fraction (divPow10F64 (natToF64 duration_in_ns) 3) "us"
    else if duration_in_ns < 1000000000 then
      format_fraction (divPow10F64 (natToF64 duration_in_ns) 6) "ms"
    else format_fraction (divPow10F64 (natToF64 duration_in_ns) 9) "s"

/-! ### The newer crate (`layer/`): `CompatLayer`, its JSON formatter, the
cross-context accessor, and the event write path. -/

namespace Layer

/-- The configuration state of `CompatLayer` (the formatter, writer and
registry are type parameters in the source and carry no per-layer state that
the claims depend on). -/
structure CompatLayer where
  with_spans : Bool
  deriving DecidableEq, Repr

/-- `CompatLayer::new`. -/
def CompatLayer.new : CompatLayer := ⟨false⟩

/-- The builder method `CompatLayer::with_spans` (named `withSpans` here
because the structure field already uses the source name). -/
def CompatLayer.withSpans (_l : CompatLayer) (b : Bool) : CompatLayer := ⟨b⟩

/-- `Layer::on_new_span`: attach a fresh `Visitor` holding the span's initial
attributes. -/
def on_new_span (attrs : List RecordOp) (s : SpanNode) : SpanNode :=
  { s with acc := some (Visitor.empty.recordAll attrs) }

/-- `Layer::on_record`: merge newly recorded values into the span's existing
`Visitor`; a missing `Visitor` is the `expect` panic, modelled as an error. -/
def on_record (s : SpanNode) (values : List RecordOp) : Except String SpanNode :=
  match s.acc with
  | none => .error "Visitor not found on 'record', this is a bug"
  | some v => .ok { s with acc := some (v.recordAll values) }

/-- `Layer::on_enter` at clock reading `now`: on the first entry insert the
`InstantWrapper` and, when `with_spans` is set, emit a synthesized `"start"`
event.  Returns the updated span and whether a start record was emitted. -/
def on_enter (l : CompatLayer) (now : Nat) (s : SpanNode) : SpanNode × Bool :=
  if s.timer.isNone then ({ s with timer := some now }, l.with_spans)
  else (s, false)

/-- `Layer::on_close` at clock reading `now`: when `with_spans` is set, read
the start instant (its absence is the `expect` panic) and emit an `"end"`
event carrying the formatted elapsed duration; otherwise do nothing.
Returns the `elapsed` field of the emitted record, if any. -/
def on_close (l : CompatLayer) (now : Nat) (s : SpanNode) : Except String (Option String) :=
  if l.with_spans then
    match s.timer with
    | none => .error "Start not found, this is a bug"
    | some start =>
      .ok (some (format_duration ((now - start) / 10 ^ 9) ((now - start) % 10 ^ 9)))
  else .ok none

/-- `CompatLayer::get_context` composed with `CompatSpanExt::get_stored`:
walk the scope chain given root-first (`span.scope().from_root()`), skip
scopes without an attached `Visitor`, and return the first value found for
`key` (`f` returns `true` exactly when the lookup succeeded). -/
def get_stored (chain : List SpanNode) (key : String) : Option JsonValue :=
  match chain with
  | [] => none
  | s :: rest =>
    match s.acc with
    | none => get_stored rest key
    | some v =>
      match lookupField key v.fields with
      | some x => some x
      | none => get_stored rest key

namespace JsonFormatter

/-- `JsonFormatter::spans`: serialize each scope's accumulator contents in
`from_root` order; a scope without a `Visitor` is the `expect` panic. -/
def spans : List SpanNode → Except String (List Entry)
  | [] => .ok []
  | s :: rest =>
    match s.acc with
    | none => .error "Extensions should contain visitor, this is a bug"
    | some v =>
      match spans rest with
      | .ok es => .ok (v.fields ++ es)
      | .error e => .error e

/-- `JsonFormatter::format_event` (newer variant): the event's current span is
given as its root-first ancestor list plus the nearest enclosing span itself
(`none` when the event has no parent and no span is active).  Produces the
sequence of `serialize_entry` calls of a successful serialization. -/
def format_event (pid : String) (ev : EventData)
    (current : Option (List SpanNode × SpanNode)) : Except String (List Entry) :=
  let visitor := Visitor.empty.recordAll ev.fields
  let message := lookupField "message" visitor.fields
  let own := removeField "message" visitor.fields
  let title := (message.bind JsonValue.as_str).getD ev.meta.name
  let scopeFields : Except String (List Entry) :=
    match current with
    | some (anc, cur) => spans (anc ++ [cur])
    | none => .ok []
  match scopeFields with
  | .error e => .error e
  | .ok sf =>
    .ok ([("level", .str ev.meta.level), ("title", .str title)]
      ++ (match current with
          | some (_, cur) => [("span", .str cur.meta.name)]
          | none => [])
      ++ [("source.filename", jsonOfOptStr ev.meta.file),
          ("source.line", jsonOfOptNat ev.meta.line),
          ("source.target", .str ev.meta.target),
          ("source.pid", .str pid)]
      ++ sf ++ own)

end JsonFormatter

/-! #### The byte-level event write path (`on_event` and `WriteAdaptor`) -/

/-- UTF-8 validity of a byte sequence (`std::str::from_utf8` succeeds). -/
def validUtf8 : List Nat → Bool
  | [] => true
  | b :: rest =>
    if b < 0x80 then validUtf8 rest
    else if 0xc2 ≤ b ∧ b ≤ 0xdf then
      match rest with
      | c :: rest' => decide (0x80 ≤ c ∧ c ≤ 0xbf) && validUtf8 rest'
      | [] => false
    else if 0xe0 ≤ b ∧ b ≤ 0xef then
      match rest with
      | c1 :: c2 :: rest' =>
        let lo1 := if b = 0xe0 then 0xa0 else 0x80
        let hi1 := if b = 0xed then 0x9f else 0xbf
        decide (lo1 ≤ c1 ∧ c1 ≤ hi1) && decide (0x80 ≤ c2 ∧ c2 ≤ 0xbf)
          && validUtf8 rest'
      | _ => false
    else if 0xf0 ≤ b ∧ b ≤ 0xf4 then
      match rest with
      | c1 :: c2 :: c3 :: rest' =>
        let lo1 := if b = 0xf0 then 0x90 else 0x80
        let hi1 := if b = 0xf4 then 0x8f else 0xbf
        decide (lo1 ≤ c1 ∧ c1 ≤ hi1) && decide (0x80 ≤ c2 ∧ c2 ≤ 0xbf)
          && decide (0x80 ≤ c3 ∧ c3 ≤ 0xbf) && validUtf8 rest'
      | _ => false
    else false

/-- `io::Write::write` for `WriteAdaptor`: decode the chunk as UTF-8 (error
`InvalidData` on failure) and append it to the inner `fmt::Write` buffer,
reporting the number of bytes consumed. -/
def WriteAdaptor.write (inner : List Nat) (buf : List Nat) :
    Except Unit (List Nat × Nat) :=
  if validUtf8 buf then .ok (inner ++ buf, buf.length) else .error ()

/-- `write_all` of a serialization, chunk by chunk, through the adaptor into
the buffer: stops at the first failing chunk, keeping the bytes already
written (the partially formatted record stays in the buffer). -/
def write_all (inner : List Nat) : List (List Nat) → List Nat × Bool
  | [] => (inner, true)
  | c :: cs =>
    match WriteAdaptor.write inner c with
    | .ok (inner', _) => write_all inner' cs
    | .error _ => (inner, false)

/-- One occurrence reaching `on_event`: the byte chunks its serialization
pushes through the `WriteAdaptor`, and whether the sink accepts the final
`write_all` of the buffer. -/
structure EventIn where
  chunks : List (List Nat)
  sinkOk : Bool
  deriving DecidableEq, Repr

/-- The state `on_event` touches: the per-thread scratch buffer and the bytes
the sink has accepted so far. -/
structure ThreadState where
  buf : List Nat
  sink : List Nat
  deriving DecidableEq, Repr

/-- `Layer::on_event`: format into the scratch buffer (`let _ =` discards a
formatting error, leaving any partial bytes in the buffer), hand the buffer to
the sink (`let _ =` discards a sink error), then clear the buffer. -/
def on_event (st : ThreadState) (ev : EventIn) : ThreadState :=
  let fmt := write_all st.buf ev.chunks
  let sink' := if ev.sinkOk then st.sink ++ fmt.1 else st.sink
  { buf := [], sink := sink' }

/-- A sequence of `on_event` callbacks. -/
def run_events (st : ThreadState) (evs : List EventIn) : ThreadState :=
  evs.foldl on_event st

/-- The bytes one `on_event` callback contributes to the sink, starting from
an empty scratch buffer: nothing if the sink write fails, otherwise whatever
the formatter managed to push into the buffer before its first error. -/
def emitted (ev : EventIn) : List Nat :=
  if ev.sinkOk then (write_all [] ev.chunks).1 else []

/-- A sequence of `on_enter` callbacks at the given clock readings. -/
def run_enters (l : CompatLayer) (s : SpanNode) (times : List Nat) : SpanNode :=
  times.foldl (fun s t => (on_enter l t s).1) s

end Layer

/-! ### The older crate (`src/`): its `JsonFormatter` with explicit
`type`/`parent` entries and per-lifecycle span records. -/

namespace Compat

inductive SpanLifecycle where
  | start
  | «end»
  deriving DecidableEq, Repr

def SpanLifecycle.as_str : SpanLifecycle → String
  | .start => "start"
  | .«end» => "end"

namespace JsonFormatter

/-- `JsonFormatter::spans` (older variant; same code as the newer one). -/
def spans : List SpanNode → Except String (List Entry)
  | [] => .ok []
  | s :: rest =>
    match s.acc with
    | none => .error "Extensions should contain visitor, this is a bug"
    | some v =>
      match spans rest with
      | .ok es => .ok (v.fields ++ es)
      | .error e => .error e

/-- `JsonFormatter::format_event` (older variant): emits an explicit
`"type": "event"` marker and a `"parent"` reference; the `message` field is
kept in the visitor and filtered out only when the own fields are
serialized. -/
def format_event (pid : String) (ev : EventData)
    (current : Option (List SpanNode × SpanNode)) : Except String (List Entry) :=
  let visitor := Visitor.empty.recordAll ev.fields
  let title := ((lookupField "message" visitor.fields).bind JsonValue.as_str).getD ev.meta.name
  let scopeFields : Except String (List Entry) :=
    match current with
    | some (anc, cur) => spans (anc ++ [cur])
    | none => .ok []
  match scopeFields with
  | .error e => .error e
  | .ok sf =>
    .ok ([("level", .str ev.meta.level), ("title", .str title), ("type", .str "event")]
      ++ (match current with
          | some (_, cur) => [("parent", .str cur.meta.name)]
          | none => [])
      ++ [("source.filename", jsonOfOptStr ev.meta.file),
          ("source.line", jsonOfOptNat ev.meta.line),
          ("source.target", .str ev.meta.target),
          ("source.pid", .str pid)]
      ++ sf ++ (visitor.fields.filter (fun e => e.1 ≠ "message")))

/-- `JsonFormatter::format_span` (older variant): the lifecycle record for a
span, whose chain (root-first, the span itself last) is serialized after the
fixed metadata entries. -/
def format_span (pid : String) (anc : List SpanNode) (cur : SpanNode)
    (lifecycle : SpanLifecycle) : Except String (List Entry) :=
  match spans (anc ++ [cur]) with
  | .error e => .error e
  | .ok sf =>
    .ok ([("level", .str cur.meta.level), ("title", .str cur.meta.name),
          ("type", .str lifecycle.as_str),
          ("source.filename", jsonOfOptStr cur.meta.file),
          ("source.line", jsonOfOptNat cur.meta.line),
          ("source.target", .str cur.meta.target),
          ("source.pid", .str pid)]
      ++ sf)

end JsonFormatter

end Compat

/-! ### Spec-side definitions (formalizing the claims' wording, to be compared
with the source embeddings above) -/

/-- A consuming JSON reader that treats the record as a key→value object with
last-key-wins semantics: fold over the entries, later entries overwriting. -/
def lastWins (entries : List Entry) (k : String) : Option JsonValue :=
  entries.foldl (fun acc e => if e.1 = k then some e.2 else acc) none

/-- The Cross-Context Accessor lookup as the spec words it: check the current
scope, then its parent, and so on outward, returning the first match (the
chain is root-first, so the recursion prefers the tail). -/
def nearest_first_get : List SpanNode → String → Option JsonValue
  | [], _ => none
  | s :: rest, key =>
    match nearest_first_get rest key with
    | some v => some v
    | none => s.acc.bind (fun v => lookupField key v.fields)

/-- The decimal-count rule as claim C4 words it, on the scaled value. -/
def specDecimals (q : ℚ) : Nat :=
  if q < 10 then 3 else if q < 100 then 2 else if q < 1000 then 1 else 0

/-- The fixed metadata prefix claim C8 asserts for every emitted record:
level, title, a type marker or a span reference, then the four source
entries. -/
abbrev beginsWithC8Order (entries : List Entry) : Prop :=
  (entries.map Prod.fst).take 7 =
      ["level", "title", "type", "source.filename", "source.line",
       "source.target", "source.pid"]
    ∨ (entries.map Prod.fst).take 7 =
      ["level", "title", "span", "source.filename", "source.line",
       "source.target", "source.pid"]

/-! ### Concrete demonstration data (used by witnesses and counterexamples) -/

/-- A callsite metadata value for concrete evaluations. -/
def demoMeta (name : String) : Metadata :=
  ⟨name, "INFO", some "src/main.rs", some 10, "demo"⟩

/-- An outer scope carrying field `a = 1`. -/
def demoOuter : SpanNode :=
  ⟨demoMeta "outer", some (Visitor.empty.record_i64 "a" 1), none⟩

/-- A nested scope carrying field `a = 2`. -/
def demoInner : SpanNode :=
  ⟨demoMeta "inner", some (Visitor.empty.record_i64 "a" 2), none⟩

/-- A scope with no auxiliary data attached. -/
def demoBare : SpanNode := ⟨demoMeta "bare", none, none⟩

/-- An event carrying a `message` field and a field `b = 3`. -/
def demoEvent : EventData :=
  ⟨demoMeta "demo event", [.str "message" "shaving yaks", .i64 "b" 3]⟩

/-- An `on_event` occurrence whose second serialization chunk is malformed
(the byte `0xff` never occurs in valid UTF-8), with a working sink. -/
def demoBadEvent : Layer.EventIn := ⟨[[123], [255]], true⟩

/-! ### Helper lemmas -/

theorem charListLt_irrefl : ∀ l : List Char, charListLt l l = false
  | [] => rfl
  | a :: as => by
    simp [charListLt, Nat.lt_irrefl, charListLt_irrefl as]

theorem strLt_irrefl (s : String) : strLt s s = false :=
  charListLt_irrefl s.data

theorem charListLt_trans : ∀ {a b c : List Char},
    charListLt a b = true → charListLt b c = true → charListLt a c = true
  | [], [], _, hab, _ => by simp [charListLt] at hab
  | [], _ :: _, [], _, hbc => by simp [charListLt] at hbc
  | [], _ :: _, _ :: _, _, _ => rfl
  | _ :: _, [], _, hab, _ => by simp [charListLt] at hab
  | _ :: _, _ :: _, [], _, hbc => by simp [charListLt] at hbc
  | x :: as, y :: bs, z :: cs, hab, hbc => by
    rw [charListLt] at hab hbc ⊢
    by_cases h1 : x.val.toNat < y.val.toNat
    · by_cases h2 : y.val.toNat < z.val.toNat
      · rw [if_pos (Nat.lt_trans h1 h2)]
      · by_cases h3 : z.val.toNat < y.val.toNat
        · rw [if_neg h2, if_pos h3] at hbc
          exact absurd hbc (by simp)
        · have hyz : y.val.toNat = z.val.toNat := Nat.le_antisymm (Nat.not_lt.mp h3) (Nat.not_lt.mp h2)
          rw [if_pos (hyz ▸ h1)]
    · by_cases h4 : y.val.toNat < x.val.toNat
      · rw [if_neg h1, if_pos h4] at hab
        exact absurd hab (by simp)
      · have hxy : x.val.toNat = y.val.toNat := Nat.le_antisymm (Nat.not_lt.mp h4) (Nat.not_lt.mp h1)
        rw [if_neg h1, if_neg h4] at hab
        by_cases h2 : y.val.toNat < z.val.toNat
        · rw [if_pos (hxy ▸ h2)]
        · by_cases h3 : z.val.toNat < y.val.toNat
          · rw [if_neg h2, if_pos h3] at hbc
            exact absurd hbc (by simp)
          · rw [if_neg h2, if_neg h3] at hbc
            rw [if_neg (hxy ▸ h2), if_neg (hxy ▸ h3)]
            exact charListLt_trans hab hbc

theorem strLt_trans {a b c : String} (hab : strLt a b = true)
    (hbc : strLt b c = true) : strLt a c = true :=
  charListLt_trans hab hbc

theorem charListLt_total : ∀ a b : List Char,
    charListLt a b = true ∨ a = b ∨ charListLt b a = true
  | [], [] => Or.inr (Or.inl rfl)
  | [], _ :: _ => Or.inl rfl
  | _ :: _, [] => Or.inr (Or.inr rfl)
  | a :: as, b :: bs => by
    by_cases h1 : a.val.toNat < b.val.toNat
    · left; simp [charListLt, h1]
    · by_cases h2 : b.val.toNat < a.val.toNat
      · right; right; simp [charListLt, h2]
      · have hab : a = b :=
          Char.ext (UInt32.ext (Nat.le_antisymm (Nat.not_lt.mp h2) (Nat.not_lt.mp h1)))
        subst hab
        rcases charListLt_total as bs with h | h | h
        · left; simp [charListLt, Nat.lt_irrefl, h]
        · right; left; rw [h]
        · right; right; simp [charListLt, Nat.lt_irrefl, h]

theorem strLt_total (a b : String) : strLt a b = true ∨ a = b ∨ strLt b a = true := by
  rcases charListLt_total a.data b.data with h | h | h
  · exact Or.inl h
  · refine Or.inr (Or.inl ?_)
    cases a; cases b
    exact congrArg String.mk (by simpa using h)
  · exact Or.inr (Or.inr h)

theorem insertField_insertField_same (k : String) (v₁ v₂ : JsonValue) :
    ∀ fs : List Entry, insertField k v₂ (insertField k v₁ fs) = insertField k v₂ fs
  | [] => by simp [insertField, strLt_irrefl]
  | e :: rest => by
    by_cases h1 : strLt k e.1 = true
    · simp [insertField, h1, strLt_irrefl]
    · by_cases h2 : k = e.1
      · simp [insertField, h1, h2, strLt_irrefl]
      · simp [insertField, h1, h2, insertField_insertField_same k v₁ v₂ rest]

theorem lookupField_insertField_self (k : String) (v : JsonValue) :
    ∀ fs : List Entry, lookupField k (insertField k v fs) = some v
  | [] => by simp [insertField, lookupField]
  | e :: rest => by
    by_cases h1 : strLt k e.1 = true
    · simp [insertField, h1, lookupField]
    · by_cases h2 : k = e.1
      · simp [insertField, h1, h2, lookupField, strLt_irrefl]
      · have hne : e.1 ≠ k := fun h => h2 h.symm
        simp [insertField, h1, h2, lookupField, hne,
          lookupField_insertField_self k v rest]

theorem mem_insertField {k : String} {v : JsonValue} :
    ∀ {fs : List Entry} {e : Entry}, e ∈ insertField k v fs → e = (k, v) ∨ e ∈ fs := by
  intro fs
  induction fs with
  | nil => intro e he; simp [insertField] at he; exact Or.inl he
  | cons a rest ih =>
    intro e he
    by_cases h1 : strLt k a.1 = true
    · simp only [insertField, if_pos h1, List.mem_cons] at he
      rcases he with h | h | h
      · exact Or.inl h
      · exact Or.inr (h ▸ List.mem_cons_self a rest)
      · exact Or.inr (List.mem_cons_of_mem a h)
    · by_cases h2 : k = a.1
      · simp only [insertField, if_neg h1, if_pos h2, List.mem_cons] at he
        rcases he with h | h
        · exact Or.inl h
        · exact Or.inr (List.mem_cons_of_mem a h)
      · simp only [insertField, if_neg h1, if_neg h2, List.mem_cons] at he
        rcases he with h | h
        · exact Or.inr (h ▸ List.mem_cons_self a rest)
        · rcases ih h with h' | h'
          · exact Or.inl h'
          · exact Or.inr (List.mem_cons_of_mem a h')

theorem sortedFields_insertField (k : String) (v : JsonValue) :
    ∀ {fs : List Entry}, SortedFields fs → SortedFields (insertField k v fs) := by
  intro fs
  induction fs with
  | nil => intro _; simp [insertField, SortedFields]
  | cons a rest ih =>
    intro h
    rw [SortedFields, List.pairwise_cons] at h
    obtain ⟨ha, hrest⟩ := h
    by_cases h1 : strLt k a.1 = true
    · rw [SortedFields, insertField, if_pos h1, List.pairwise_cons]
      refine ⟨?_, ?_⟩
      · intro b hb
        rcases List.mem_cons.mp hb with hb | hb
        · subst hb; exact h1
        · exact strLt_trans h1 (ha b hb)
      · rw [List.pairwise_cons]; exact ⟨ha, hrest⟩
    · by_cases h2 : k = a.1
      · rw [SortedFields, insertField, if_neg h1, if_pos h2, List.pairwise_cons]
        exact ⟨fun b hb => by rw [h2]; exact ha b hb, hrest⟩
      · rw [SortedFields, insertField, if_neg h1, if_neg h2, List.pairwise_cons]
        refine ⟨?_, ih hrest⟩
        intro b hb
        rcases mem_insertField hb with hb' | hb'
        · subst hb'
          rcases strLt_total k a.1 with h | h | h
          · exact absurd h h1
          · exact absurd h h2
          · exact h
        · exact ha b hb'

theorem sortedFields_record (v : Visitor) (op : RecordOp)
    (h : SortedFields v.fields) : SortedFields (v.record op).fields := by
  cases op with
  | i64 name value => exact sortedFields_insertField name (.int value) h
  | u64 name value => exact sortedFields_insertField name (.int value) h
  | f64 name rendering => exact sortedFields_insertField name (.float rendering) h
  | bool name value => exact sortedFields_insertField name (.bool value) h
  | str name value => exact sortedFields_insertField name (.str value) h
  | debug name rendered =>
    rw [Visitor.record, Visitor.record_debug]
    by_cases hl : strStartsWith name "log."
    · simpa [hl] using h
    · by_cases hr : strStartsWith name "r#"
      · simpa [hl, hr] using sortedFields_insertField (strDrop name 2) (.str rendered) h
      · simpa [hl, hr] using sortedFields_insertField name (.str rendered) h

theorem sortedFields_recordAll (ops : List RecordOp) :
    ∀ v : Visitor, SortedFields v.fields → SortedFields (v.recordAll ops).fields := by
  induction ops with
  | nil => intro v h; exact h
  | cons op ops ih =>
    intro v h
    exact ih (v.record op) (sortedFields_record v op h)

theorem sortedFields_nil : SortedFields [] := List.Pairwise.nil

theorem foldl_lastWins (k : String) :
    ∀ (l : List Entry) (init : Option JsonValue),
      l.foldl (fun acc e => if e.1 = k then some e.2 else acc) init =
        match lastWins l k with
        | some v => some v
        | none => init := by
  intro l
  induction l with
  | nil => intro init; simp [lastWins]
  | cons e l ih =>
    intro init
    rw [List.foldl_cons, ih]
    have hlw : lastWins (e :: l) k =
        match lastWins l k with
        | some v => some v
        | none => if e.1 = k then some e.2 else none := by
      rw [lastWins, List.foldl_cons, ih]
    rw [hlw]
    cases lastWins l k with
    | some v => rfl
    | none =>
      by_cases h : e.1 = k
      · simp [h]
      · simp [h]

theorem lastWins_append (l₁ l₂ : List Entry) (k : String) :
    lastWins (l₁ ++ l₂) k =
      match lastWins l₂ k with
      | some v => some v
      | none => lastWins l₁ k := by
  rw [lastWins, List.foldl_append]
  exact foldl_lastWins k l₂ (lastWins l₁ k)

theorem lastWins_nil (k : String) : lastWins [] k = none := rfl

theorem lastWins_append_some {l₂ : List Entry} {k : String} {v : JsonValue}
    (h : lastWins l₂ k = some v) (l₁ : List Entry) :
    lastWins (l₁ ++ l₂) k = some v := by
  rw [lastWins_append, h]

theorem lastWins_append_none {l₂ : List Entry} {k : String}
    (h : lastWins l₂ k = none) (l₁ : List Entry) :
    lastWins (l₁ ++ l₂) k = lastWins l₁ k := by
  rw [lastWins_append, h]

theorem lastWins_cons_some {l : List Entry} {k : String} {v : JsonValue}
    (e : Entry) (h : lastWins l k = some v) : lastWins (e :: l) k = some v := by
  rw [lastWins, List.foldl_cons, foldl_lastWins, h]

theorem lookupField_eq_none_of_forall {k : String} :
    ∀ {l : List Entry}, (∀ e ∈ l, e.1 ≠ k) → lookupField k l = none := by
  intro l
  induction l with
  | nil => intro _; rfl
  | cons e l ih =>
    intro h
    rw [lookupField, if_neg (h e (List.mem_cons_self e l))]
    exact ih fun e' he' => h e' (List.mem_cons_of_mem e he')

theorem lastWins_eq_none {k : String} :
    ∀ {l : List Entry}, lookupField k l = none → lastWins l k = none := by
  intro l
  induction l with
  | nil => intro _; rfl
  | cons e l ih =>
    intro h
    rw [lookupField] at h
    by_cases he : e.1 = k
    · simp [he] at h
    · rw [if_neg he] at h
      rw [lastWins, List.foldl_cons, if_neg he]
      exact ih h

theorem lastWins_of_sorted {k : String} {v : JsonValue} :
    ∀ {l : List Entry}, SortedFields l → lookupField k l = some v →
      lastWins l k = some v := by
  intro l
  induction l with
  | nil => intro _ h; exact absurd h (by simp [lookupField])
  | cons e l ih =>
    intro hs h
    rw [SortedFields, List.pairwise_cons] at hs
    obtain ⟨he, hl⟩ := hs
    by_cases h1 : e.1 = k
    · rw [lookupField, if_pos h1] at h
      have hnone : lookupField k l = none :=
        lookupField_eq_none_of_forall fun e' he' hk => by
          have hlt := he e' he'
          rw [h1, hk] at hlt
          simp [strLt_irrefl] at hlt
      rw [lastWins, List.foldl_cons, if_pos h1, foldl_lastWins,
        lastWins_eq_none hnone]
      exact h
    · rw [lookupField, if_neg h1] at h
      rw [lastWins, List.foldl_cons, if_neg h1]
      exact ih hl h

theorem lastWins_of_lookup_nodupkeys {k : String} {v : JsonValue}
    {l : List Entry} (hs : SortedFields l) (h : lookupField k l = some v) :
    lastWins l k = some v := lastWins_of_sorted hs h

theorem Layer.spans_eq_join :
    ∀ {chain : List SpanNode}, (∀ s ∈ chain, s.acc.isSome) →
      Layer.JsonFormatter.spans chain = .ok ((chain.map accFields).flatten) := by
  intro chain
  induction chain with
  | nil => intro _; rfl
  | cons s rest ih =>
    intro h
    obtain ⟨v, hv⟩ := Option.isSome_iff_exists.mp (h s (List.mem_cons_self s rest))
    have hrest := ih fun s' hs' => h s' (List.mem_cons_of_mem s hs')
    simp [Layer.JsonFormatter.spans, hv, hrest, accFields]

theorem Compat.spans_eq_join_old :
    ∀ {chain : List SpanNode}, (∀ s ∈ chain, s.acc.isSome) →
      Compat.JsonFormatter.spans chain = .ok ((chain.map accFields).flatten) := by
  intro chain
  induction chain with
  | nil => intro _; rfl
  | cons s rest ih =>
    intro h
    obtain ⟨v, hv⟩ := Option.isSome_iff_exists.mp (h s (List.mem_cons_self s rest))
    have hrest := ih fun s' hs' => h s' (List.mem_cons_of_mem s hs')
    simp [Compat.JsonFormatter.spans, hv, hrest, accFields]

theorem Layer.get_stored_eq_head :
    ∀ (chain : List SpanNode) (key : String),
      Layer.get_stored chain key =
        (chain.filterMap
          (fun s => s.acc.bind (fun v => lookupField key v.fields))).head? := by
  intro chain key
  induction chain with
  | nil => rfl
  | cons s rest ih =>
    rw [Layer.get_stored, List.filterMap_cons]
    cases hacc : s.acc with
    | none => simpa [hacc] using ih
    | some v =>
      cases hlk : lookupField key v.fields with
      | none => simpa [hacc, hlk] using ih
      | some x => simp [hacc, hlk]

theorem Layer.write_all_valid :
    ∀ (cs : List (List Nat)) (inner : List Nat), (∀ c ∈ cs, validUtf8 c) →
      Layer.write_all inner cs = (inner ++ cs.flatten, true) := by
  intro cs
  induction cs with
  | nil => intro inner _; simp [Layer.write_all]
  | cons c cs ih =>
    intro inner h
    have hc := h c (List.mem_cons_self c cs)
    rw [Layer.write_all, Layer.WriteAdaptor.write, if_pos hc]
    show Layer.write_all (inner ++ c) cs = _
    rw [ih (inner ++ c) fun c' hc' => h c' (List.mem_cons_of_mem c hc')]
    simp

theorem Layer.on_event_from_empty (ev : Layer.EventIn) (sink : List Nat) :
    Layer.on_event ⟨[], sink⟩ ev = ⟨[], sink ++ Layer.emitted ev⟩ := by
  rw [Layer.on_event, Layer.emitted]
  by_cases h : ev.sinkOk
  · simp [h]
  · simp [h]

theorem Layer.run_events_spec :
    ∀ (evs : List Layer.EventIn) (sink : List Nat),
      Layer.run_events ⟨[], sink⟩ evs =
        ⟨[], sink ++ (evs.map Layer.emitted).flatten⟩ := by
  intro evs
  induction evs with
  | nil => intro sink; simp [Layer.run_events]
  | cons ev evs ih =>
    intro sink
    rw [Layer.run_events, List.foldl_cons, Layer.on_event_from_empty]
    have := ih (sink ++ Layer.emitted ev)
    rw [Layer.run_events] at this
    rw [this]
    simp [List.append_assoc]

theorem Layer.run_enters_of_timer_set (l : Layer.CompatLayer) (t : Nat) :
    ∀ (ts : List Nat) (s : SpanNode), s.timer = some t →
      Layer.run_enters l s ts = s := by
  intro ts
  induction ts with
  | nil => intro s _; rfl
  | cons t' ts ih =>
    intro s h
    rw [Layer.run_enters, List.foldl_cons]
    have : (Layer.on_enter l t' s).1 = s := by
      rw [Layer.on_enter, h]
      simp
    rw [this]
    exact ih s h

theorem Layer.run_enters_first (l : Layer.CompatLayer) (s : SpanNode)
    (h : s.timer = none) (t : Nat) (ts : List Nat) :
    Layer.run_enters l s (t :: ts) = { s with timer := some t } := by
  rw [Layer.run_enters, List.foldl_cons]
  have h1 : (Layer.on_enter l t s).1 = { s with timer := some t } := by
    rw [Layer.on_enter, h]
    simp
  rw [h1]
  exact Layer.run_enters_of_timer_set l t ts _ rfl

theorem specDecimals_div_pow (ns j : Nat) :
    specDecimals ((ns : ℚ) / 10 ^ j) =
      (if ns < 10 * 10 ^ j then 3 else if ns < 100 * 10 ^ j then 2
       else if ns < 1000 * 10 ^ j then 1 else 0) := by
  have hpow : (0 : ℚ) < (10 : ℚ) ^ j := by positivity
  have k10 : ((ns : ℚ) / 10 ^ j < 10) ↔ ns < 10 * 10 ^ j := by
    rw [div_lt_iff₀ hpow]
    norm_cast
  have k100 : ((ns : ℚ) / 10 ^ j < 100) ↔ ns < 100 * 10 ^ j := by
    rw [div_lt_iff₀ hpow]
    norm_cast
  have k1000 : ((ns : ℚ) / 10 ^ j < 1000) ↔ ns < 1000 * 10 ^ j := by
    rw [div_lt_iff₀ hpow]
    norm_cast
  rw [specDecimals]
  exact if_congr k10 rfl (if_congr k100 rfl (if_congr k1000 rfl rfl))

theorem roundHalfEven_one (a : Nat) : roundHalfEven a 1 = a := by
  simp [roundHalfEven, Nat.mod_one]

theorem roundHalfEven_le (a b : Nat) (hb : 0 < b) :
    (roundHalfEven a b : ℚ) ≤ (a : ℚ) / b + 1 / 2 := by
  have hq := Nat.div_add_mod a b
  have hr : a % b < b := Nat.mod_lt a hb
  have hbq : (0 : ℚ) < (b : ℚ) := by exact_mod_cast hb
  have ha : (a : ℚ) = (b : ℚ) * (a / b : Nat) + (a % b : Nat) := by exact_mod_cast hq.symm
  have hx : (a : ℚ) / b = ((a / b : Nat) : ℚ) + ((a % b : Nat) : ℚ) / b := by
    rw [ha]
    field_simp
    ring
  have hrb : ((a % b : Nat) : ℚ) / b ≥ 0 := by positivity
  simp only [roundHalfEven]
  split_ifs with h1 h2 h3
  · push_cast
    rw [hx]
    linarith
  · have h2q : (b : ℚ) < 2 * ((a % b : Nat) : ℚ) := by exact_mod_cast h2
    have : (1 : ℚ) / 2 < ((a % b : Nat) : ℚ) / b := by
      rw [div_lt_div_iff₀ (by norm_num) hbq]
      linarith
    push_cast
    rw [hx]
    linarith
  · push_cast
    rw [hx]
    linarith
  · have : ((a % b : Nat) : ℚ) / b = 1 / 2 := by
      rw [div_eq_div_iff hbq.ne' (by norm_num : (2 : ℚ) ≠ 0)]
      have h5 : (a % b) * 2 = 1 * b := by omega
      exact_mod_cast h5
    push_cast
    rw [hx]
    linarith

theorem le_roundHalfEven (a b : Nat) (hb : 0 < b) :
    (a : ℚ) / b - 1 / 2 ≤ (roundHalfEven a b : ℚ) := by
  have hq := Nat.div_add_mod a b
  have hr : a % b < b := Nat.mod_lt a hb
  have hbq : (0 : ℚ) < (b : ℚ) := by exact_mod_cast hb
  have ha : (a : ℚ) = (b : ℚ) * (a / b : Nat) + (a % b : Nat) := by exact_mod_cast hq.symm
  have hx : (a : ℚ) / b = ((a / b : Nat) : ℚ) + ((a % b : Nat) : ℚ) / b := by
    rw [ha]
    field_simp
    ring
  have hrb1 : ((a % b : Nat) : ℚ) / b < 1 := by
    rw [div_lt_one hbq]
    exact_mod_cast hr
  simp only [roundHalfEven]
  split_ifs with h1 h2 h3
  · have h1q : 2 * ((a % b : Nat) : ℚ) < (b : ℚ) := by exact_mod_cast h1
    have : ((a % b : Nat) : ℚ) / b < 1 / 2 := by
      rw [div_lt_div_iff₀ hbq (by norm_num)]
      linarith
    push_cast
    rw [hx]
    linarith
  · push_cast
    rw [hx]
    linarith
  · have : ((a % b : Nat) : ℚ) / b = 1 / 2 := by
      rw [div_eq_div_iff hbq.ne' (by norm_num : (2 : ℚ) ≠ 0)]
      have h5 : (a % b) * 2 = 1 * b := by omega
      exact_mod_cast h5
    push_cast
    rw [hx]
    linarith
  · push_cast
    rw [hx]
    linarith

theorem floorLog2From_le (num den : Nat) : ∀ E : Nat, floorLog2From num den E ≤ E
  | 0 => le_refl 0
  | E + 1 => by
    rw [floorLog2From]
    split
    · exact le_refl _
    · exact le_trans (floorLog2From_le num den E) (by omega)

theorem floorLog2From_bounds (num den : Nat) :
    ∀ E : Nat, den ≤ num → num < den * 2 ^ (E + 1) →
      den * 2 ^ floorLog2From num den E ≤ num
      ∧ num < den * 2 ^ (floorLog2From num den E + 1)
  | 0, h1, h2 => by
    rw [floorLog2From]
    constructor
    · simpa using h1
    · simpa using h2
  | E + 1, h1, h2 => by
    rw [floorLog2From]
    by_cases hc : den * 2 ^ (E + 1) ≤ num
    · rw [if_pos hc]
      exact ⟨hc, h2⟩
    · rw [if_neg hc]
      exact floorLog2From_bounds num den E h1 (by omega)

theorem floorLog2_bounds (num den : Nat) (h1 : den ≤ num)
    (h2 : num < den * 2 ^ 151) :
    den * 2 ^ floorLog2 num den ≤ num
    ∧ num < den * 2 ^ (floorLog2 num den + 1) :=
  floorLog2From_bounds num den 150 h1 h2

theorem roundF64_le (num den : Nat) (hd : 0 < den) :
    pairVal (roundF64 num den) ≤ (num : ℚ) / den + (2 : ℚ) ^ floorLog2 num den / 2 ^ 53 := by
  have hbq : (0 : ℚ) < (den : ℚ) := by exact_mod_cast hd
  rw [roundF64]
  by_cases hc : floorLog2 num den ≤ 52
  · rw [if_pos hc]
    rw [pairVal]
    set e := floorLog2 num den with he
    have hb := roundHalfEven_le (num * 2 ^ (52 - e)) den hd
    have hp : (0 : ℚ) < (2 : ℚ) ^ (52 - e) := by positivity
    have step : (roundHalfEven (num * 2 ^ (52 - e)) den : ℚ) / 2 ^ (52 - e)
        ≤ (((num * 2 ^ (52 - e) : Nat) : ℚ) / den + 1 / 2) / 2 ^ (52 - e) := by gcongr
    refine le_trans step (le_of_eq ?_)
    have h53 : (2 : ℚ) ^ 53 = 2 ^ e * 2 ^ (52 - e + 1) := by
      rw [← pow_add]
      congr 1
      omega
    rw [h53]
    push_cast
    field_simp
    ring
  · rw [if_neg hc]
    rw [pairVal]
    dsimp only
    rw [pow_zero, div_one]
    push_neg at hc
    set e := floorLog2 num den with he
    have hdb : 0 < den * 2 ^ (e - 52) := by positivity
    have hb := roundHalfEven_le num (den * 2 ^ (e - 52)) hdb
    have hp : (0 : ℚ) < (2 : ℚ) ^ (e - 52) := by positivity
    have step : ((roundHalfEven num (den * 2 ^ (e - 52)) : ℚ)) * 2 ^ (e - 52)
        ≤ (((num : ℚ)) / ((den * 2 ^ (e - 52) : Nat) : ℚ) + 1 / 2) * 2 ^ (e - 52) := by
      gcongr
    have hcast : (((roundHalfEven num (den * 2 ^ (e - 52)) * 2 ^ (e - 52) : Nat)) : ℚ)
        = ((roundHalfEven num (den * 2 ^ (e - 52)) : ℚ)) * 2 ^ (e - 52) := by
      push_cast
      ring
    rw [hcast]
    refine le_trans step (le_of_eq ?_)
    have h1 : (2 : ℚ) ^ e = 2 ^ 53 * 2 ^ (e - 53) := by
      rw [← pow_add]
      congr 1
      omega
    have h2 : (2 : ℚ) ^ (e - 52) = 2 ^ (e - 53) * 2 := by
      rw [← pow_succ]
      congr 1
      omega
    rw [h1, h2]
    push_cast
    field_simp
    rw [h2]
    ring

theorem le_roundF64 (num den : Nat) (hd : 0 < den) :
    (num : ℚ) / den - (2 : ℚ) ^ floorLog2 num den / 2 ^ 53 ≤ pairVal (roundF64 num den) := by
  have hbq : (0 : ℚ) < (den : ℚ) := by exact_mod_cast hd
  rw [roundF64]
  by_cases hc : floorLog2 num den ≤ 52
  · rw [if_pos hc]
    rw [pairVal]
    set e := floorLog2 num den with he
    have hb := le_roundHalfEven (num * 2 ^ (52 - e)) den hd
    have hp : (0 : ℚ) < (2 : ℚ) ^ (52 - e) := by positivity
    have step : (((num * 2 ^ (52 - e) : Nat) : ℚ) / den - 1 / 2) / 2 ^ (52 - e)
        ≤ (roundHalfEven (num * 2 ^ (52 - e)) den : ℚ) / 2 ^ (52 - e) := by gcongr
    refine le_trans (le_of_eq ?_) step
    have h53 : (2 : ℚ) ^ 53 = 2 ^ e * 2 ^ (52 - e + 1) := by
      rw [← pow_add]
      congr 1
      omega
    rw [h53]
    push_cast
    field_simp
    ring
  · rw [if_neg hc]
    rw [pairVal]
    dsimp only
    rw [pow_zero, div_one]
    push_neg at hc
    set e := floorLog2 num den with he
    have hdb : 0 < den * 2 ^ (e - 52) := by positivity
    have hb := le_roundHalfEven num (den * 2 ^ (e - 52)) hdb
    have hp : (0 : ℚ) < (2 : ℚ) ^ (e - 52) := by positivity
    have step : (((num : ℚ)) / ((den * 2 ^ (e - 52) : Nat) : ℚ) - 1 / 2) * 2 ^ (e - 52)
        ≤ ((roundHalfEven num (den * 2 ^ (e - 52)) : ℚ)) * 2 ^ (e - 52) := by
      gcongr
    have hcast : (((roundHalfEven num (den * 2 ^ (e - 52)) * 2 ^ (e - 52) : Nat)) : ℚ)
        = ((roundHalfEven num (den * 2 ^ (e - 52)) : ℚ)) * 2 ^ (e - 52) := by
      push_cast
      ring
    rw [hcast]
    refine le_trans (le_of_eq ?_) step
    have h1 : (2 : ℚ) ^ e = 2 ^ 53 * 2 ^ (e - 53) := by
      rw [← pow_add]
      congr 1
      omega
    have h2 : (2 : ℚ) ^ (e - 52) = 2 ^ (e - 53) * 2 := by
      rw [← pow_succ]
      congr 1
      omega
    rw [h1, h2]
    push_cast
    field_simp
    rw [h2]
    ring

theorem pairVal_lt_iff (x : F64) (T : Nat) :
    (pairVal x < (T : ℚ)) ↔ f64Lt x T = true := by
  rw [pairVal, f64Lt]
  have h2 : (0 : ℚ) < (2 : ℚ) ^ x.2 := by positivity
  rw [div_lt_iff₀ h2, decide_eq_true_iff]
  constructor
  · intro h
    exact_mod_cast h
  · intro h
    exact_mod_cast h

theorem roundHalfEven_scale (c a b : Nat) (hc : 0 < c) :
    roundHalfEven (c * a) (c * b) = roundHalfEven a b := by
  have hdiv : c * a / (c * b) = a / b := Nat.mul_div_mul_left a b hc
  have hmod : c * a % (c * b) = c * (a % b) := Nat.mul_mod_mul_left c a b
  have h1 : (2 * (c * (a % b)) < c * b) ↔ (2 * (a % b) < b) := by
    rw [show 2 * (c * (a % b)) = c * (2 * (a % b)) by ring]
    exact mul_lt_mul_left hc
  have h2 : (c * b < 2 * (c * (a % b))) ↔ (b < 2 * (a % b)) := by
    rw [show 2 * (c * (a % b)) = c * (2 * (a % b)) by ring]
    exact mul_lt_mul_left hc
  simp only [roundHalfEven, hdiv, hmod]
  rw [if_congr h1 rfl (if_congr h2 rfl rfl)]

theorem floorLog2From_scale (c n d : Nat) (hc : 0 < c) :
    ∀ E : Nat, floorLog2From (c * n) (c * d) E = floorLog2From n d E
  | 0 => rfl
  | E + 1 => by
    rw [floorLog2From, floorLog2From]
    have hiff : (c * d * 2 ^ (E + 1) ≤ c * n) ↔ (d * 2 ^ (E + 1) ≤ n) := by
      rw [mul_assoc]
      exact mul_le_mul_left hc
    exact if_congr hiff rfl (floorLog2From_scale c n d hc E)

theorem roundF64_scale (c n d : Nat) (hc : 0 < c) :
    roundF64 (c * n) (c * d) = roundF64 n d := by
  rw [roundF64, roundF64, floorLog2, floorLog2, floorLog2From_scale c n d hc]
  by_cases hce : floorLog2From n d 150 ≤ 52
  · rw [if_pos hce, if_pos hce]
    rw [show c * n * 2 ^ (52 - floorLog2From n d 150)
        = c * (n * 2 ^ (52 - floorLog2From n d 150)) by ring]
    rw [roundHalfEven_scale c _ d hc]
  · rw [if_neg hce, if_neg hce]
    rw [show c * d * 2 ^ (floorLog2From n d 150 - 52)
        = c * (d * 2 ^ (floorLog2From n d 150 - 52)) by ring]
    rw [roundHalfEven_scale c n _ hc]

theorem roundF64_lt_iff (num den T : Nat) (hd : 0 < den) (hnd : den ≤ num)
    (hnum : num < den * 2 ^ 151) (hden : den < 2 ^ 44) (hT0 : 0 < T)
    (hT : T ≤ 1000) :
    (f64Lt (roundF64 num den) T = true) ↔ num < T * den := by
  rw [← pairVal_lt_iff]
  obtain ⟨hlo, hhi⟩ := floorLog2_bounds num den hnd hnum
  have hbq : (0 : ℚ) < (den : ℚ) := by exact_mod_cast hd
  have hXlo : (2 : ℚ) ^ floorLog2 num den ≤ (num : ℚ) / den := by
    rw [le_div_iff₀ hbq]
    have : (den * 2 ^ floorLog2 num den : Nat) ≤ num := hlo
    exact_mod_cast by linarith [this]
  have herr1 := roundF64_le num den hd
  have herr2 := le_roundF64 num den hd
  set e := floorLog2 num den with he
  constructor
  · intro hV
    by_contra hnlt
    push_neg at hnlt
    have hXT : (T : ℚ) ≤ (num : ℚ) / den := by
      rw [le_div_iff₀ hbq]
      exact_mod_cast hnlt
    by_cases he9 : e ≤ 9
    · have hform : pairVal (roundF64 num den)
          = (roundHalfEven (num * 2 ^ (52 - e)) den : ℚ) / 2 ^ (52 - e) := by
        rw [roundF64, ← he, if_pos (by omega), pairVal]
      have hp : (0 : ℚ) < (2 : ℚ) ^ (52 - e) := by positivity
      have hMlt : roundHalfEven (num * 2 ^ (52 - e)) den < T * 2 ^ (52 - e) := by
        have hq : (roundHalfEven (num * 2 ^ (52 - e)) den : ℚ) < T * 2 ^ (52 - e) := by
          rw [hform, div_lt_iff₀ hp] at hV
          exact hV
        exact_mod_cast hq
      have hVle : pairVal (roundF64 num den) ≤ (T : ℚ) - 1 / 2 ^ (52 - e) := by
        rw [hform, div_le_iff₀ hp]
        have hM1 : (roundHalfEven (num * 2 ^ (52 - e)) den : ℚ)
            ≤ (T : ℚ) * 2 ^ (52 - e) - 1 := by
          have hn : roundHalfEven (num * 2 ^ (52 - e)) den + 1 ≤ T * 2 ^ (52 - e) := hMlt
          have : ((roundHalfEven (num * 2 ^ (52 - e)) den + 1 : Nat) : ℚ)
              ≤ ((T * 2 ^ (52 - e) : Nat) : ℚ) := by exact_mod_cast hn
          push_cast at this
          linarith
        calc ((T : ℚ) - 1 / 2 ^ (52 - e)) * 2 ^ (52 - e)
            = (T : ℚ) * 2 ^ (52 - e) - 1 := by field_simp
          _ ≥ (roundHalfEven (num * 2 ^ (52 - e)) den : ℚ) := hM1
      have hprod : (2 : ℚ) ^ (52 - e) * 2 ^ e = 2 ^ 52 := by
        rw [← pow_add]
        congr 1
        omega
      have hne : ((2 : ℚ) ^ (52 - e)) ≠ 0 := by positivity
      have hne2 : ((2 : ℚ) ^ 53) ≠ 0 := by positivity
      have hkey : (1 : ℚ) / 2 ^ (52 - e) = 2 * (2 ^ e / 2 ^ 53) := by
        have h53 : (2 : ℚ) ^ 53 = 2 * 2 ^ 52 := by norm_num
        rw [h53, ← hprod]
        field_simp
        ring
      have hfinal : (num : ℚ) / den < (T : ℚ) := by
        have h1 := herr2
        have hpos : (0 : ℚ) < 2 ^ e / 2 ^ 53 := by positivity
        linarith [hVle, herr2, hkey, hpos]
      linarith
    · push_neg at he9
      have h2e : (2 : ℚ) ^ 10 ≤ 2 ^ e := by
        apply pow_le_pow_right (by norm_num)
        omega
      have hTq : (T : ℚ) ≤ 1000 := by exact_mod_cast hT
      linarith [herr2, hXlo, hV, h2e, hTq]
  · intro hlt
    have hXle : (num : ℚ) / den ≤ (T : ℚ) - 1 / den := by
      rw [div_le_iff₀ hbq]
      have hn : num + 1 ≤ T * den := hlt
      have : ((num + 1 : Nat) : ℚ) ≤ ((T * den : Nat) : ℚ) := by exact_mod_cast hn
      push_cast at this
      have hrw : ((T : ℚ) - 1 / den) * den = (T : ℚ) * den - 1 := by
        field_simp
      linarith [hrw]
    have he9 : e ≤ 9 := by
      by_contra hgt
      push_neg at hgt
      have h2e : (2 : ℚ) ^ 10 ≤ 2 ^ e := by
        apply pow_le_pow_right (by norm_num)
        omega
      have hTq : (T : ℚ) ≤ 1000 := by exact_mod_cast hT
      have hdpos : (0 : ℚ) < 1 / den := by positivity
      linarith [hXlo, hXle, h2e, hTq, hdpos]
    have hdq : (den : ℚ) < 2 ^ 44 := by exact_mod_cast hden
    have h1den : (1 : ℚ) / 2 ^ 44 < 1 / den := by
      apply div_lt_div_of_pos_left (by norm_num) hbq hdq
    have hee : (2 : ℚ) ^ e ≤ 2 ^ 9 := by
      apply pow_le_pow_right (by norm_num)
      omega
    have h29 : (2 : ℚ) ^ 9 / 2 ^ 53 = 1 / 2 ^ 44 := by norm_num
    have hstep : (2 : ℚ) ^ e / 2 ^ 53 ≤ 1 / 2 ^ 44 := by
      rw [← h29]
      gcongr
    calc pairVal (roundF64 num den) ≤ (num : ℚ) / den + 2 ^ e / 2 ^ 53 := herr1
      _ ≤ (T : ℚ) - 1 / den + 1 / 2 ^ 44 := by linarith
      _ < T := by linarith

theorem divPow10F64_natToF64_small (ns j : Nat) (h1 : 1 ≤ ns) (h : ns < 2 ^ 53) :
    divPow10F64 (natToF64 ns) j = roundF64 ns (10 ^ j) := by
  rw [natToF64, roundF64]
  obtain ⟨hlo, hhi⟩ := floorLog2_bounds ns 1 h1 (by omega)
  set e := floorLog2 ns 1 with he
  have he52 : e ≤ 52 := by
    by_contra hgt
    push_neg at hgt
    have hp : 2 ^ 53 ≤ 2 ^ e := Nat.pow_le_pow_right (by norm_num) (by omega)
    omega
  rw [if_pos he52, roundHalfEven_one]
  rw [divPow10F64]
  dsimp only
  rw [show ns * 2 ^ (52 - e) = 2 ^ (52 - e) * ns by ring,
    show (2 : Nat) ^ (52 - e) * 10 ^ j = 2 ^ (52 - e) * 10 ^ j from rfl]
  exact roundF64_scale (2 ^ (52 - e)) ns (10 ^ j) (by positivity)

theorem natToF64_large (ns : Nat) (h : 2 ^ 53 ≤ ns) (h2 : ns < 2 ^ 64) :
    ∃ m : Nat, natToF64 ns = (m, 0) ∧ 10 ^ 12 ≤ m ∧ m < 2 ^ 65 := by
  rw [natToF64, roundF64]
  obtain ⟨hlo, hhi⟩ := floorLog2_bounds ns 1 (by omega) (by omega)
  set e := floorLog2 ns 1 with he
  have he53 : 53 ≤ e := by
    by_contra hc
    push_neg at hc
    have hp : 2 ^ (e + 1) ≤ 2 ^ 53 := Nat.pow_le_pow_right (by norm_num) (by omega)
    omega
  have he63 : e ≤ 63 := by
    by_contra hc
    push_neg at hc
    have hp : 2 ^ 64 ≤ 2 ^ e := Nat.pow_le_pow_right (by norm_num) (by omega)
    omega
  rw [if_neg (by omega)]
  refine ⟨_, rfl, ?_, ?_⟩
  · set M := roundHalfEven ns (1 * 2 ^ (e - 52)) with hM
    have hdb : (0 : Nat) < 1 * 2 ^ (e - 52) := by positivity
    have hge := le_roundHalfEven ns (1 * 2 ^ (e - 52)) hdb
    have hp : (0 : ℚ) < (2 : ℚ) ^ (e - 52) := by positivity
    have hcast : ((1 * 2 ^ (e - 52) : Nat) : ℚ) = 2 ^ (e - 52) := by push_cast; ring
    rw [hcast] at hge
    have hstep : (ns : ℚ) - 2 ^ (e - 52) / 2 ≤ (M : ℚ) * 2 ^ (e - 52) := by
      have hmul := mul_le_mul_of_nonneg_right hge (le_of_lt hp)
      calc (ns : ℚ) - 2 ^ (e - 52) / 2
          = ((ns : ℚ) / 2 ^ (e - 52) - 1 / 2) * 2 ^ (e - 52) := by field_simp; ring
        _ ≤ (M : ℚ) * 2 ^ (e - 52) := hmul
    have hee : (2 : ℚ) ^ (e - 52) ≤ 2 ^ 11 := by
      apply pow_le_pow_right (by norm_num)
      omega
    have hns : (2 : ℚ) ^ 53 ≤ (ns : ℚ) := by exact_mod_cast h
    have hq : ((10 : ℚ) ^ 12) ≤ (M : ℚ) * 2 ^ (e - 52) := by
      have h1 : ((10 : ℚ) ^ 12) ≤ 2 ^ 53 - 2 ^ 11 / 2 := by norm_num
      linarith
    have hq2 : ((10 ^ 12 : Nat) : ℚ) ≤ ((M * 2 ^ (e - 52) : Nat) : ℚ) := by
      push_cast
      linarith
    exact_mod_cast hq2
  · set M := roundHalfEven ns (1 * 2 ^ (e - 52)) with hM
    have hdb : (0 : Nat) < 1 * 2 ^ (e - 52) := by positivity
    have hle := roundHalfEven_le ns (1 * 2 ^ (e - 52)) hdb
    have hp : (0 : ℚ) < (2 : ℚ) ^ (e - 52) := by positivity
    have hcast : ((1 * 2 ^ (e - 52) : Nat) : ℚ) = 2 ^ (e - 52) := by push_cast; ring
    rw [hcast] at hle
    have hstep : (M : ℚ) * 2 ^ (e - 52) ≤ (ns : ℚ) + 2 ^ (e - 52) / 2 := by
      have hmul := mul_le_mul_of_nonneg_right hle (le_of_lt hp)
      calc (M : ℚ) * 2 ^ (e - 52) ≤ ((ns : ℚ) / 2 ^ (e - 52) + 1 / 2) * 2 ^ (e - 52) := hmul
        _ = (ns : ℚ) + 2 ^ (e - 52) / 2 := by field_simp; ring
    have hee : (2 : ℚ) ^ (e - 52) ≤ 2 ^ 11 := by
      apply pow_le_pow_right (by norm_num)
      omega
    have hns : (ns : ℚ) < 2 ^ 64 := by exact_mod_cast h2
    have hq : (M : ℚ) * 2 ^ (e - 52) < 2 ^ 65 := by
      have : (2 : ℚ) ^ 64 + 2 ^ 11 / 2 < 2 ^ 65 := by norm_num
      linarith
    have hq2 : ((M * 2 ^ (e - 52) : Nat) : ℚ) < ((2 ^ 65 : Nat) : ℚ) := by
      push_cast
      linarith
    exact_mod_cast hq2

theorem format_fraction_eq_spec (ns j : Nat) (suffix : String) (hj : j ≤ 9)
    (hlo : 10 ^ j ≤ ns) (hhi : ns < 2 ^ 64) :
    format_fraction (divPow10F64 (natToF64 ns) j) suffix =
      formatF64Fixed (divPow10F64 (natToF64 ns) j)
        (specDecimals ((ns : ℚ) / 10 ^ j)) ++ suffix := by
  have hdj : (0 : Nat) < 10 ^ j := by positivity
  have h10j9 : (10 : Nat) ^ j ≤ 10 ^ 9 := Nat.pow_le_pow_right (by norm_num) hj
  have hden : (10 : Nat) ^ j < 2 ^ 44 := by
    calc (10 : Nat) ^ j ≤ 10 ^ 9 := h10j9
      _ < 2 ^ 44 := by norm_num
  have key : ∀ T : Nat, 0 < T → T ≤ 1000 →
      (f64Lt (divPow10F64 (natToF64 ns) j) T = true ↔ ns < T * 10 ^ j) := by
    intro T hT0 hT
    by_cases hsmall : ns < 2 ^ 53
    · rw [divPow10F64_natToF64_small ns j (le_trans (Nat.one_le_pow j 10 (by norm_num)) hlo) hsmall]
      exact roundF64_lt_iff ns (10 ^ j) T hdj hlo
        (lt_of_lt_of_le hhi (by
          calc (2 : Nat) ^ 64 ≤ 2 ^ 151 := Nat.pow_le_pow_right (by norm_num) (by norm_num)
            _ = 1 * 2 ^ 151 := (one_mul _).symm
            _ ≤ 10 ^ j * 2 ^ 151 :=
              Nat.mul_le_mul_right _ (Nat.one_le_pow j 10 (by norm_num))))
        hden hT0 hT
    · push_neg at hsmall
      obtain ⟨m, hm, hm12, hm65⟩ := natToF64_large ns hsmall hhi
      rw [divPow10F64, hm]
      dsimp only
      rw [pow_zero, one_mul]
      rw [roundF64_lt_iff m (10 ^ j) T hdj
        (le_trans (le_trans h10j9 (by norm_num)) hm12)
        (lt_of_lt_of_le hm65 (by
          calc (2 : Nat) ^ 65 ≤ 2 ^ 151 := Nat.pow_le_pow_right (by norm_num) (by norm_num)
            _ = 1 * 2 ^ 151 := (one_mul _).symm
            _ ≤ 10 ^ j * 2 ^ 151 :=
              Nat.mul_le_mul_right _ (Nat.one_le_pow j 10 (by norm_num))))
        hden hT0 hT]
      have hTj : T * 10 ^ j ≤ 10 ^ 12 := by
        calc T * 10 ^ j ≤ 1000 * 10 ^ 9 := Nat.mul_le_mul hT h10j9
          _ ≤ 10 ^ 12 := by norm_num
      constructor
      · intro hc
        omega
      · intro hc
        exfalso
        omega
  rw [specDecimals_div_pow ns j, format_fraction]
  by_cases h10 : ns < 10 * 10 ^ j
  · rw [if_pos ((key 10 (by norm_num) (by norm_num)).mpr h10), if_pos h10]
  · rw [if_neg (fun hc => h10 ((key 10 (by norm_num) (by norm_num)).mp hc)), if_neg h10]
    by_cases h100 : ns < 100 * 10 ^ j
    · rw [if_pos ((key 100 (by norm_num) (by norm_num)).mpr h100), if_pos h100]
    · rw [if_neg (fun hc => h100 ((key 100 (by norm_num) (by norm_num)).mp hc)),
        if_neg h100]
      by_cases h1000 : ns < 1000 * 10 ^ j
      · rw [if_pos ((key 1000 (by norm_num) (by norm_num)).mpr h1000), if_pos h1000]
      · rw [if_neg (fun hc => h1000 ((key 1000 (by norm_num) (by norm_num)).mp hc)),
          if_neg h1000]

/-! ### Claim theorems -/

/-- C9: within any single scope's Field Accumulator, recording the same field
name twice overwrites the earlier value — the second insert erases the first
entirely and a lookup returns the second value — and the `fields()` view
always yields its keys in sorted order: every accumulator built by visiting
record payloads from the empty map satisfies the sorted-keys invariant. -/
theorem C9_last_write_wins_and_sorted :
    (∀ (fs : List Entry) (k : String) (v₁ v₂ : JsonValue),
        insertField k v₂ (insertField k v₁ fs) = insertField k v₂ fs
        ∧ lookupField k (insertField k v₂ (insertField k v₁ fs)) = some v₂)
    ∧ (∀ (v : Visitor) (k s₁ s₂ : String),
        (v.record_str k s₁).record_str k s₂ = v.record_str k s₂)
    ∧ (∀ ops : List RecordOp, SortedFields (Visitor.empty.recordAll ops).fields) := by
  refine ⟨fun fs k v₁ v₂ => ⟨insertField_insertField_same k v₁ v₂ fs, ?_⟩,
    fun v k s₁ s₂ => ?_,
    fun ops => sortedFields_recordAll ops Visitor.empty sortedFields_nil⟩
  · rw [insertField_insertField_same k v₁ v₂ fs]
    exact lookupField_insertField_self k v₂ fs
  · simp only [Visitor.record_str]
    exact congrArg Visitor.mk (insertField_insertField_same k (.str s₁) (.str s₂) v.fields)

/-- C7: a fields-recorded callback (`on_record`) on a scope with no attached
Field Accumulator panics, and — in the span-emitting configuration — a
scope-close callback on a scope that was never entered (no attached start
timestamp) panics: both host-contract violations abort loudly instead of
being swallowed. -/
theorem C7_contract_violations_abort :
    (∀ (s : SpanNode) (values : List RecordOp), s.acc = none →
        Layer.on_record s values = .error "Visitor not found on 'record', this is a bug")
    ∧ (∀ (l : Layer.CompatLayer) (now : Nat) (s : SpanNode),
        l.with_spans = true → s.timer = none →
        Layer.on_close l now s = .error "Start not found, this is a bug") := by
  constructor
  · intro s values h
    rw [Layer.on_record, h]
  · intro l now s hl ht
    rw [Layer.on_close, if_pos hl, ht]

/-- Witness for C7 at a concrete bare scope. -/
theorem C7_contract_violations_abort_witness :
    demoBare.acc = none
    ∧ Layer.on_record demoBare [.i64 "a" 1] =
        .error "Visitor not found on 'record', this is a bug"
    ∧ (Layer.CompatLayer.new.withSpans true).with_spans = true
    ∧ demoBare.timer = none
    ∧ Layer.on_close (Layer.CompatLayer.new.withSpans true) 5 demoBare =
        .error "Start not found, this is a bug" :=
  ⟨rfl, C7_contract_violations_abort.1 demoBare [.i64 "a" 1] rfl, rfl, rfl,
    C7_contract_violations_abort.2 (Layer.CompatLayer.new.withSpans true) 5 demoBare rfl rfl⟩

/-- C10: `CompatLayer::new` sets `with_spans := false`; in that default
configuration `on_enter` never emits a start record and `on_close` emits
nothing and succeeds without ever reading the start timestamp (even when none
is attached); start/end records appear only after opting in via
`with_spans(true)`. -/
theorem C10_spans_disabled_by_default :
    Layer.CompatLayer.new.with_spans = false
    ∧ (∀ (now : Nat) (s : SpanNode),
        (Layer.on_enter Layer.CompatLayer.new now s).2 = false)
    ∧ (∀ (now : Nat) (s : SpanNode),
        Layer.on_close Layer.CompatLayer.new now s = .ok none)
    ∧ (∀ b : Bool, (Layer.CompatLayer.new.withSpans b).with_spans = b)
    ∧ (∀ (now : Nat) (s : SpanNode), s.timer = none →
        (Layer.on_enter (Layer.CompatLayer.new.withSpans true) now s).2 = true)
    ∧ (∀ (now start : Nat) (s : SpanNode), s.timer = some start →
        Layer.on_close (Layer.CompatLayer.new.withSpans true) now s =
          .ok (some (format_duration ((now - start) / 10 ^ 9) ((now - start) % 10 ^ 9)))) := by
  refine ⟨rfl, fun now s => ?_, fun now s => ?_, fun b => rfl, fun now s h => ?_,
    fun now start s h => ?_⟩
  · rw [Layer.on_enter]
    split <;> rfl
  · rw [Layer.on_close]
    rfl
  · rw [Layer.on_enter, h]
    rfl
  · rw [Layer.on_close, if_pos (show (Layer.CompatLayer.new.withSpans true).with_spans = true from rfl), h]

/-- Witness for C10 at a concrete scope and clock readings. -/
theorem C10_spans_disabled_by_default_witness :
    demoBare.timer = none
    ∧ (Layer.on_enter (Layer.CompatLayer.new.withSpans true) 3 demoBare).2 = true
    ∧ (⟨demoMeta "bare", none, some 3⟩ : SpanNode).timer = some 3
    ∧ Layer.on_close (Layer.CompatLayer.new.withSpans true) 20 ⟨demoMeta "bare", none, some 3⟩ =
        .ok (some "17ns") := by
  refine ⟨rfl, C10_spans_disabled_by_default.2.2.2.2.1 3 demoBare rfl, rfl, ?_⟩
  rw [C10_spans_disabled_by_default.2.2.2.2.2 20 3 ⟨demoMeta "bare", none, some 3⟩ rfl]
  rfl

/-- C3: the Scope Timer start timestamp is attached only on the first enter
and never overwritten by later enters, and the elapsed duration reported at
close is computed from that first-entry timestamp to the close time,
regardless of how many enters happened in between. -/
theorem C3_first_enter_timestamp :
    ∀ (l : Layer.CompatLayer) (s : SpanNode) (t : Nat) (ts : List Nat) (now : Nat),
      s.timer = none →
      (Layer.run_enters l s (t :: ts)).timer = some t
      ∧ (l.with_spans = true →
          Layer.on_close l now (Layer.run_enters l s (t :: ts)) =
            .ok (some (format_duration ((now - t) / 10 ^ 9) ((now - t) % 10 ^ 9)))) := by
  intro l s t ts now h
  rw [Layer.run_enters_first l s h t ts]
  refine ⟨rfl, fun hl => ?_⟩
  rw [Layer.on_close, if_pos hl]

/-- Witness for C3: a scope entered at 5, re-entered at 7 and 9, closed at
20 — the elapsed duration is 15 nanoseconds, measured from the first entry. -/
theorem C3_first_enter_timestamp_witness :
    demoBare.timer = none
    ∧ (Layer.run_enters (Layer.CompatLayer.new.withSpans true) demoBare [5, 7, 9]).timer = some 5
    ∧ Layer.on_close (Layer.CompatLayer.new.withSpans true) 20
        (Layer.run_enters (Layer.CompatLayer.new.withSpans true) demoBare [5, 7, 9]) =
        .ok (some "15ns") := by
  have h := C3_first_enter_timestamp (Layer.CompatLayer.new.withSpans true) demoBare 5 [7, 9] 20 rfl
  refine ⟨rfl, h.1, ?_⟩
  rw [h.2 rfl]
  rfl

/-- C2 counterexample: with field `a = 1` on the outer scope and `a = 2` on
the inner (current) scope, the accessor returns the OUTER scope's value, not
the nearest one the claim promises. -/
theorem C2_nearest_first_counterexample :
    Layer.get_stored [demoOuter, demoInner] "a" = some (.int 1)
    ∧ nearest_first_get [demoOuter, demoInner] "a" = some (.int 2)
    ∧ JsonValue.int 1 ≠ JsonValue.int 2 := by decide

/-- C2 amended: the accessor walks the active chain from the ROOT inward and
returns the first match, so the outermost scope holding the field wins; it
returns `none` exactly when no scope in the chain holds the field. -/
theorem C2_amended_root_first_lookup :
    ∀ (chain : List SpanNode) (key : String),
      Layer.get_stored chain key =
        (chain.filterMap
          (fun s => s.acc.bind (fun v => lookupField key v.fields))).head?
      ∧ ((∀ s ∈ chain, s.acc.bind (fun v => lookupField key v.fields) = none) →
          Layer.get_stored chain key = none) := by
  intro chain key
  refine ⟨Layer.get_stored_eq_head chain key, fun h => ?_⟩
  rw [Layer.get_stored_eq_head chain key, List.filterMap_eq_nil_iff.mpr h]
  rfl

/-- Witness for C2 amended, on the concrete two-scope chain. -/
theorem C2_amended_root_first_lookup_witness :
    ([demoOuter, demoInner].filterMap
        (fun s => s.acc.bind (fun v => lookupField "a" v.fields))).head? = some (.int 1)
    ∧ Layer.get_stored [demoOuter, demoInner] "a" = some (.int 1)
    ∧ (∀ s ∈ [demoOuter, demoInner], s.acc.bind (fun v => lookupField "zzz" v.fields) = none)
    ∧ Layer.get_stored [demoOuter, demoInner] "zzz" = none := by
  refine ⟨by decide, (C2_amended_root_first_lookup [demoOuter, demoInner] "a").1.trans (by decide),
    by decide, (C2_amended_root_first_lookup [demoOuter, demoInner] "zzz").2 (by decide)⟩

/-- C5 counterexample: the prefix policy is applied only on the debug path;
a `log.`-prefixed name recorded through the typed string path is stored (and
would be emitted) verbatim, and an `r#`-prefixed name recorded through the
typed integer path keeps its prefix. -/
theorem C5_prefix_policy_counterexample :
    (Visitor.empty.record_str "log.target" "app").fields
      = [("log.target", JsonValue.str "app")]
    ∧ strStartsWith "log.target" "log." = true
    ∧ (Visitor.empty.record_i64 "r#type" 7).fields = [("r#type", JsonValue.int 7)]
    ∧ strStartsWith "r#type" "r#" = true := by decide

/-- C5 amended: the field-naming policy lives on the debug fallback path
only — there a `log.`-prefixed name is dropped (the accumulator is unchanged)
and an `r#`-prefixed name is stored with the two prefix characters removed;
names recorded through the typed visit paths are stored verbatim, prefix
included. -/
theorem C5_amended_prefix_policy :
    ∀ (v : Visitor) (name rendered : String),
      (strStartsWith name "log." = true → v.record_debug name rendered = v)
      ∧ (strStartsWith name "log." = false → strStartsWith name "r#" = true →
          (v.record_debug name rendered).fields
            = insertField (strDrop name 2) (.str rendered) v.fields)
      ∧ (strStartsWith name "log." = false → strStartsWith name "r#" = false →
          (v.record_debug name rendered).fields
            = insertField name (.str rendered) v.fields)
      ∧ (∀ value : String,
          (v.record_str name value).fields = insertField name (.str value) v.fields) := by
  intro v name rendered
  refine ⟨fun h => ?_, fun h1 h2 => ?_, fun h1 h2 => ?_, fun value => rfl⟩
  · rw [Visitor.record_debug, if_pos h]
  · rw [Visitor.record_debug, if_neg (by simp [h1]), if_pos h2]
  · rw [Visitor.record_debug, if_neg (by simp [h1]), if_neg (by simp [h2])]

/-- Witness for C5 amended at concrete names. -/
theorem C5_amended_prefix_policy_witness :
    strStartsWith "log.line" "log." = true
    ∧ Visitor.empty.record_debug "log.line" "7" = Visitor.empty
    ∧ strStartsWith "r#kind" "log." = false
    ∧ strStartsWith "r#kind" "r#" = true
    ∧ (Visitor.empty.record_debug "r#kind" "cat").fields = [("kind", JsonValue.str "cat")] := by
  refine ⟨by decide, (C5_amended_prefix_policy Visitor.empty "log.line" "7").1 (by decide),
    by decide, by decide, ?_⟩
  rw [(C5_amended_prefix_policy Visitor.empty "r#kind" "cat").2.1 (by decide) (by decide)]
  decide

/-- C6 counterexample: an occurrence whose second serialization chunk is
malformed UTF-8 is not dropped as a whole — the bytes formatted before the
failure are still handed to the sink, so the failing record's write is not a
no-op (the sink changes). -/
theorem C6_silent_noop_counterexample :
    Layer.validUtf8 [255] = false
    ∧ Layer.write_all [] demoBadEvent.chunks = ([123], false)
    ∧ (Layer.on_event ⟨[], []⟩ demoBadEvent).sink = [123]
    ∧ (Layer.on_event ⟨[], []⟩ demoBadEvent).sink ≠ ([] : List Nat) := by decide

/-- C6 amended: serialization and sink failures never propagate — `on_event`
is total, the scratch buffer is cleared after every occurrence, and each
occurrence's sink contribution is independent of every other occurrence
(a fully valid occurrence with a working sink contributes exactly its full
serialization, no matter what failed before it); however, an occurrence that
fails mid-serialization still flushes the bytes produced before the failure,
so it may appear truncated rather than omitted. -/
theorem C6_amended_errors_swallowed :
    (∀ (st : Layer.ThreadState) (ev : Layer.EventIn), (Layer.on_event st ev).buf = [])
    ∧ (∀ (evs : List Layer.EventIn) (sink : List Nat),
        Layer.run_events ⟨[], sink⟩ evs = ⟨[], sink ++ (evs.map Layer.emitted).flatten⟩)
    ∧ (∀ ev : Layer.EventIn, (∀ c ∈ ev.chunks, Layer.validUtf8 c) → ev.sinkOk = true →
        Layer.emitted ev = ev.chunks.flatten) := by
  refine ⟨fun st ev => rfl, fun evs sink => Layer.run_events_spec evs sink,
    fun ev hv hs => ?_⟩
  rw [Layer.emitted, if_pos hs, Layer.write_all_valid ev.chunks [] hv]
  simp

/-- Witness for C6 amended: a failing occurrence followed by a valid one —
the valid record reaches the sink intact. -/
theorem C6_amended_errors_swallowed_witness :
    (∀ c ∈ ([[104], [105]] : List (List Nat)), Layer.validUtf8 c)
    ∧ Layer.emitted ⟨[[104], [105]], true⟩ = [104, 105]
    ∧ Layer.run_events ⟨[], []⟩ [demoBadEvent, ⟨[[104], [105]], true⟩] =
        ⟨[], [123, 104, 105]⟩ := by
  refine ⟨by decide, C6_amended_errors_swallowed.2.2 ⟨[[104], [105]], true⟩ (by decide) rfl, ?_⟩
  rw [C6_amended_errors_swallowed.2.1 [demoBadEvent, ⟨[[104], [105]], true⟩] []]
  decide

/-- C1: for an event inside a scope chain, the emitted record is the fixed
metadata prefix, then the ancestor scopes' accumulator contents in root-first
order (root's fields first, the nearest enclosing scope's fields last), then
the event's own fields with `message` removed; consequently a reader folding
duplicate keys with last-key-wins sees the inner scope's value when the same
name is recorded on an outer and an inner scope. -/
theorem C1_root_first_merge :
    (∀ (pid : String) (ev : EventData) (anc : List SpanNode) (cur : SpanNode),
        (∀ s ∈ anc ++ [cur], s.acc.isSome) →
        Layer.JsonFormatter.format_event pid ev (some (anc, cur)) =
          .ok ([("level", .str ev.meta.level),
                ("title", .str (((lookupField "message"
                    (Visitor.empty.recordAll ev.fields).fields).bind
                      JsonValue.as_str).getD ev.meta.name)),
                ("span", .str cur.meta.name),
                ("source.filename", jsonOfOptStr ev.meta.file),
                ("source.line", jsonOfOptNat ev.meta.line),
                ("source.target", .str ev.meta.target),
                ("source.pid", .str pid)]
            ++ ((anc ++ [cur]).map accFields).flatten
            ++ removeField "message" (Visitor.empty.recordAll ev.fields).fields))
    ∧ (∀ (pid : String) (ev : EventData) (outer inner : SpanNode)
        (vO vI : Visitor) (k : String) (v₁ v₂ : JsonValue) (es : List Entry),
        outer.acc = some vO → inner.acc = some vI →
        SortedFields vI.fields →
        lookupField k vO.fields = some v₁ → lookupField k vI.fields = some v₂ →
        lookupField k (removeField "message"
          (Visitor.empty.recordAll ev.fields).fields) = none →
        Layer.JsonFormatter.format_event pid ev (some ([outer], inner)) = .ok es →
        lastWins es k = some v₂) := by
  have key : ∀ (pid : String) (ev : EventData) (anc : List SpanNode) (cur : SpanNode),
      (∀ s ∈ anc ++ [cur], s.acc.isSome) →
      Layer.JsonFormatter.format_event pid ev (some (anc, cur)) =
        .ok ([("level", .str ev.meta.level),
              ("title", .str (((lookupField "message"
                  (Visitor.empty.recordAll ev.fields).fields).bind
                    JsonValue.as_str).getD ev.meta.name)),
              ("span", .str cur.meta.name),
              ("source.filename", jsonOfOptStr ev.meta.file),
              ("source.line", jsonOfOptNat ev.meta.line),
              ("source.target", .str ev.meta.target),
              ("source.pid", .str pid)]
          ++ ((anc ++ [cur]).map accFields).flatten
          ++ removeField "message" (Visitor.empty.recordAll ev.fields).fields) := by
    intro pid ev anc cur h
    simp only [Layer.JsonFormatter.format_event, Layer.spans_eq_join h]
    rfl
  refine ⟨key, ?_⟩
  intro pid ev outer inner vO vI k v₁ v₂ es houter hinner hsort hlo hli hown hfe
  have hacc : ∀ s ∈ [outer] ++ [inner], s.acc.isSome := by
    intro s hs
    rcases List.mem_append.mp hs with hs | hs
    · rw [List.mem_singleton.mp hs, houter]; rfl
    · rw [List.mem_singleton.mp hs, hinner]; rfl
  have hes := (hfe.symm.trans (key pid ev [outer] inner hacc))
  have hes' := Except.ok.inj hes
  subst hes'
  simp only [List.cons_append, List.nil_append, List.map_cons, List.map_nil,
    List.flatten_cons, List.flatten_nil, List.append_nil, accFields, houter, hinner]
  refine lastWins_cons_some _ (lastWins_cons_some _ (lastWins_cons_some _
    (lastWins_cons_some _ (lastWins_cons_some _ (lastWins_cons_some _
      (lastWins_cons_some _ ?_))))))
  exact (lastWins_append_none (lastWins_eq_none hown) _).trans
    (lastWins_append_some (lastWins_of_sorted hsort hli) vO.fields)

/-- Witness for C1: the concrete event inside `outer` (with `a = 1`) and
`inner` (with `a = 2`) produces the root-first record, and the last-key-wins
reader sees the inner scope's value `a = 2`. -/
theorem C1_root_first_merge_witness :
    demoOuter.acc = some (Visitor.empty.record_i64 "a" 1)
    ∧ demoInner.acc = some (Visitor.empty.record_i64 "a" 2)
    ∧ SortedFields (Visitor.empty.record_i64 "a" 2).fields
    ∧ lookupField "a" (Visitor.empty.record_i64 "a" 1).fields = some (.int 1)
    ∧ lookupField "a" (Visitor.empty.record_i64 "a" 2).fields = some (.int 2)
    ∧ lookupField "a" (removeField "message"
        (Visitor.empty.recordAll demoEvent.fields).fields) = none
    ∧ Layer.JsonFormatter.format_event "42" demoEvent (some ([demoOuter], demoInner)) =
        .ok [("level", .str "INFO"), ("title", .str "shaving yaks"),
             ("span", .str "inner"), ("source.filename", .str "src/main.rs"),
             ("source.line", .int 10), ("source.target", .str "demo"),
             ("source.pid", .str "42"), ("a", .int 1), ("a", .int 2), ("b", .int 3)]
    ∧ lastWins [("level", .str "INFO"), ("title", .str "shaving yaks"),
             ("span", .str "inner"), ("source.filename", .str "src/main.rs"),
             ("source.line", .int 10), ("source.target", .str "demo"),
             ("source.pid", .str "42"), ("a", .int 1), ("a", .int 2), ("b", .int 3)]
        "a" = some (.int 2) := by
  refine ⟨rfl, rfl, by decide, by decide, by decide, by decide, by rfl, ?_⟩
  exact C1_root_first_merge.2 "42" demoEvent demoOuter demoInner
    (Visitor.empty.record_i64 "a" 1) (Visitor.empty.record_i64 "a" 2)
    "a" (.int 1) (.int 2) _ rfl rfl (by decide) (by decide) (by decide) (by decide)
    (by rfl)

/-- C4 counterexample: `checked_mul` only guards the seconds multiplication;
for 18446744073s + 709551616ns the product is representable but the addition
of the subsecond nanoseconds wraps past `2^64`, and the wrapped total `0`
renders as `"0ns"` — not the seconds rendering the claim requires for a
duration of ~18.4 billion nanoseconds-seconds magnitude. -/
theorem C4_wrap_counterexample :
    format_duration 18446744073 709551616 = "0ns"
    ∧ 18446744073 * 1000000000 < 2 ^ 64
    ∧ 2 ^ 64 ≤ 18446744073 * 1000000000 + 709551616
    ∧ 709551616 < 10 ^ 9 := by decide

/-- C4 amended: `format_duration` falls back to whole seconds when the
seconds×10^9 product overflows 64 bits; otherwise the nanosecond total is the
wrapping 64-bit sum of that product and the subsecond nanoseconds, and the
wrapped total selects the unit (ns below 1000, us below 10^6, ms below 10^9,
s otherwise); the fractional branches cast the total to an IEEE double,
divide by the unit in double precision, and pick the decimal count from that
double — which this theorem shows agrees with the spec's exact thresholds on
the rational quotient (3 under 10, 2 under 100, 1 under 1000, 0 at or above)
— then render the double with Rust's fixed-format rounding; in particular
500 → "500ns", 1500 → "1.500us", 10^9 → "1.000s". -/
theorem C4_amended_format_duration :
    (∀ secs subsec_nanos : Nat, 2 ^ 64 ≤ secs * 1000000000 →
        format_duration secs subsec_nanos = toString secs ++ "s")
    ∧ (∀ secs subsec_nanos : Nat, secs * 1000000000 < 2 ^ 64 →
        format_duration secs subsec_nanos =
          format_duration 0 ((secs * 1000000000 + subsec_nanos) % 2 ^ 64))
    ∧ (∀ ns : Nat, ns < 2 ^ 64 →
        (ns < 1000 → format_duration (ns / 10 ^ 9) (ns % 10 ^ 9) = toString ns ++ "ns")
        ∧ (1000 ≤ ns → ns < 10 ^ 6 →
            format_duration (ns / 10 ^ 9) (ns % 10 ^ 9) =
              formatF64Fixed (divPow10F64 (natToF64 ns) 3)
                (specDecimals ((ns : ℚ) / 10 ^ 3)) ++ "us")
        ∧ (10 ^ 6 ≤ ns → ns < 10 ^ 9 →
            format_duration (ns / 10 ^ 9) (ns % 10 ^ 9) =
              formatF64Fixed (divPow10F64 (natToF64 ns) 6)
                (specDecimals ((ns : ℚ) / 10 ^ 6)) ++ "ms")
        ∧ (10 ^ 9 ≤ ns →
            format_duration (ns / 10 ^ 9) (ns % 10 ^ 9) =
              formatF64Fixed (divPow10F64 (natToF64 ns) 9)
                (specDecimals ((ns : ℚ) / 10 ^ 9)) ++ "s"))
    ∧ format_duration 0 500 = "500ns"
    ∧ format_duration 0 1500 = "1.500us"
    ∧ format_duration 1 0 = "1.000s"
    ∧ format_duration 0 10005 = "10.01us" := by
  refine ⟨fun secs nanos h => ?_, fun secs nanos h => ?_, fun ns hns => ?_,
    by decide, by decide, by decide, by decide⟩
  · rw [format_duration, checkedMul64, if_neg (by omega)]
  · rw [format_duration, format_duration, checkedMul64, checkedMul64,
      if_pos h, if_pos (by norm_num)]
    simp only [Nat.zero_mul, Nat.zero_add, Nat.mod_mod_of_dvd _ (dvd_refl _)]
  · have hle : (ns / 10 ^ 9) * 1000000000 ≤ ns := by omega
    have hre : ((ns / 10 ^ 9) * 1000000000 + ns % 10 ^ 9) % 2 ^ 64 = ns := by omega
    rw [format_duration, checkedMul64, if_pos (by omega)]
    simp only [hre]
    refine ⟨fun h => by rw [if_pos h], fun h1 h2 => ?_, fun h1 h2 => ?_, fun h1 => ?_⟩
    · rw [if_neg (by omega), if_pos (by omega)]
      exact format_fraction_eq_spec ns 3 "us" (by norm_num)
        (le_of_eq_of_le (by norm_num : (10 : Nat) ^ 3 = 1000) h1) hns
    · rw [if_neg (by omega), if_neg (by omega), if_pos (by omega)]
      exact format_fraction_eq_spec ns 6 "ms" (by norm_num) h1 hns
    · rw [if_neg (by omega), if_neg (by omega), if_neg (by omega)]
      exact format_fraction_eq_spec ns 9 "s" (by norm_num) h1 hns

/-- Witness for C4 amended at 1500 nanoseconds. -/
theorem C4_amended_format_duration_witness :
    1500 < 2 ^ 64 ∧ 1000 ≤ 1500 ∧ 1500 < 10 ^ 6
    ∧ format_duration (1500 / 10 ^ 9) (1500 % 10 ^ 9) =
        formatF64Fixed (divPow10F64 (natToF64 1500) 3)
          (specDecimals ((1500 : ℚ) / 10 ^ 3)) ++ "us"
    ∧ format_duration (1500 / 10 ^ 9) (1500 % 10 ^ 9) = "1.500us" := by
  have h := (C4_amended_format_duration.2.2.1 1500 (by decide)).2.1 (by decide) (by decide)
  refine ⟨by decide, by decide, by decide, h, ?_⟩
  decide

/-- C8 counterexample: in the newer formatter, an event with no enclosing
scope yields a record whose third entry is already `source.filename` — there
is neither a type marker nor a span reference, so the claimed fixed metadata
prefix does not hold for every record. -/
theorem C8_fixed_order_counterexample :
    Layer.JsonFormatter.format_event "42" demoEvent none =
      .ok [("level", .str "INFO"), ("title", .str "shaving yaks"),
           ("source.filename", .str "src/main.rs"), ("source.line", .int 10),
           ("source.target", .str "demo"), ("source.pid", .str "42"), ("b", .int 3)]
    ∧ ¬ beginsWithC8Order [("level", .str "INFO"), ("title", .str "shaving yaks"),
           ("source.filename", .str "src/main.rs"), ("source.line", .int 10),
           ("source.target", .str "demo"), ("source.pid", .str "42"), ("b", .int 3)] :=
  ⟨by rfl, by decide⟩

/-- C8 amended: record key order per entry point — the newer event formatter
emits level, title, a span reference exactly when an enclosing scope exists,
then the four source entries; the older formatter emits level, title, a type
marker, (for events inside a scope) a parent reference, then the four source
entries; ancestor-scope fields and occurrence-own fields follow in all
cases. -/
theorem C8_amended_metadata_order :
    (∀ (pid : String) (ev : EventData) (anc : List SpanNode) (cur : SpanNode),
        (∀ s ∈ anc ++ [cur], s.acc.isSome) →
        (Layer.JsonFormatter.format_event pid ev (some (anc, cur))).map
            (fun es => es.map Prod.fst) =
          .ok (["level", "title", "span", "source.filename", "source.line",
                "source.target", "source.pid"]
            ++ ((anc ++ [cur]).map accFields).flatten.map Prod.fst
            ++ (removeField "message"
                  (Visitor.empty.recordAll ev.fields).fields).map Prod.fst))
    ∧ (∀ (pid : String) (ev : EventData),
        (Layer.JsonFormatter.format_event pid ev none).map
            (fun es => es.map Prod.fst) =
          .ok (["level", "title", "source.filename", "source.line",
                "source.target", "source.pid"]
            ++ (removeField "message"
                  (Visitor.empty.recordAll ev.fields).fields).map Prod.fst))
    ∧ (∀ (pid : String) (ev : EventData) (anc : List SpanNode) (cur : SpanNode),
        (∀ s ∈ anc ++ [cur], s.acc.isSome) →
        (Compat.JsonFormatter.format_event pid ev (some (anc, cur))).map
            (fun es => es.map Prod.fst) =
          .ok (["level", "title", "type", "parent", "source.filename",
                "source.line", "source.target", "source.pid"]
            ++ ((anc ++ [cur]).map accFields).flatten.map Prod.fst
            ++ ((Visitor.empty.recordAll ev.fields).fields.filter
                  (fun e => e.1 ≠ "message")).map Prod.fst))
    ∧ (∀ (pid : String) (anc : List SpanNode) (cur : SpanNode)
        (lc : Compat.SpanLifecycle),
        (∀ s ∈ anc ++ [cur], s.acc.isSome) →
        (Compat.JsonFormatter.format_span pid anc cur lc).map
            (fun es => es.map Prod.fst) =
          .ok (["level", "title", "type", "source.filename", "source.line",
                "source.target", "source.pid"]
            ++ ((anc ++ [cur]).map accFields).flatten.map Prod.fst)) := by
  refine ⟨fun pid ev anc cur h => ?_, fun pid ev => ?_,
    fun pid ev anc cur h => ?_, fun pid anc cur lc h => ?_⟩
  · simp only [Layer.JsonFormatter.format_event, Layer.spans_eq_join h, Except.map]
    simp [List.map_append]
  · simp only [Layer.JsonFormatter.format_event, Except.map]
    simp [List.map_append]
  · simp only [Compat.JsonFormatter.format_event, Compat.spans_eq_join_old h, Except.map]
    simp [List.map_append]
  · simp only [Compat.JsonFormatter.format_span, Compat.spans_eq_join_old h, Except.map]
    simp [List.map_append]

/-- Witness for C8 amended, at the concrete two-scope chain. -/
theorem C8_amended_metadata_order_witness :
    (∀ s ∈ [demoOuter] ++ [demoInner], s.acc.isSome)
    ∧ (Layer.JsonFormatter.format_event "42" demoEvent
          (some ([demoOuter], demoInner))).map (fun es => es.map Prod.fst) =
        .ok ["level", "title", "span", "source.filename", "source.line",
             "source.target", "source.pid", "a", "a", "b"]
    ∧ (Compat.JsonFormatter.format_span "42" [demoOuter] demoInner
          Compat.SpanLifecycle.start).map (fun es => es.map Prod.fst) =
        .ok ["level", "title", "type", "source.filename", "source.line",
             "source.target", "source.pid", "a", "a"] := by
  refine ⟨by decide, ?_, ?_⟩
  · rw [C8_amended_metadata_order.1 "42" demoEvent [demoOuter] demoInner (by decide)]
    rfl
  · rw [C8_amended_metadata_order.2.2.2 "42" [demoOuter] demoInner
      Compat.SpanLifecycle.start (by decide)]
    rfl

end TracingExp
